import Mathlib

/-!
# Verification of the multi-order-type orderbook

A shallow embedding of `src/multi_order_type_orderbook_cpp` (Orderbook.cpp,
Order.h, OrderModify.h, Constants.h, Usings.h, the OrderType/Side headers)
and of the test-harness input parser (`InputHandler`), together with proofs
about the embedded operations.

Machine integers: `Price` (C++ `std::int32_t`) is embedded as `Int` — the
engine only copies and compares prices, no arithmetic, so no wraparound can
occur.  `Quantity` (`std::uint32_t`) is embedded as `Nat`; the one place the
code performs arithmetic that can wrap (the `LevelData::quantity_`
`+=`/`-=` updates) is modelled with explicit `% 2^32`.  `OrderId`
(`std::uint64_t`) is only ever compared, so `Nat`.

The class declaration of `Orderbook` lives in `Orderbook.h`, which is not
part of the sources; the member-container shapes are modelled from the spec:
`bids_` is a price-to-FIFO-queue map iterated by descending price, `asks_`
the same iterated by ascending price, `data_` a price-keyed map (modelled
sorted ascending like a default `std::map`), and `orders_` is the id index
that `Orderbook.cpp` keeps in sync with the side maps at every operation
boundary — it is modelled implicitly by scanning the side maps.
-/

namespace Orderbook

/-- `OrderType` from the OrderType header (five variants). -/
inductive OrderType where
  | GoodTillCancel
  | FillAndKill
  | FillOrKill
  | GoodForDay
  | Market
deriving DecidableEq, Repr

/-- `Side` from the Side header. -/
inductive Side where
  | Buy
  | Sell
deriving DecidableEq, Repr

/-- `2^32`, the modulus of `std::uint32_t` arithmetic. -/
def U32 : Nat := 4294967296

/-- `uint32_t` addition (`a + b` with wraparound). -/
def add32 (a b : Nat) : Nat := (a + b) % U32

/-- `uint32_t` subtraction (`a - b` with wraparound). -/
def sub32 (a b : Nat) : Nat := (a % U32 + (U32 - b % U32)) % U32

/-- The `Order` class of Order.h: type, id, side, price (`Int` for the
`int32_t` `Price`), initial and remaining quantity (`Nat` for the
`uint32_t` `Quantity`; the constructor sets `initialQuantity_` and
`remainingQuantity_` both to `quantity`, and the redundant `quantity_`
field is never read back, so it is omitted). -/
structure Order where
  orderType : OrderType
  orderId : Nat
  side : Side
  price : Int
  initialQuantity : Nat
  remainingQuantity : Nat
deriving DecidableEq, Repr

/-- The full `Order` constructor: `initial = remaining = quantity`. -/
def Order.make (t : OrderType) (id : Nat) (s : Side) (p : Int) (q : Nat) :
    Order :=
  ⟨t, id, s, p, q, q⟩

/-- `Order::IsFilled`: `remainingQuantity == 0`. -/
def Order.IsFilled (o : Order) : Bool := o.remainingQuantity == 0

/-- `Order::Fill(quantity)`: subtracts from the remaining quantity.  The
C++ method throws when `quantity > remaining`; its only caller
(`MatchOrders`) passes `min` of the two remainings, so the guarded domain
is `quantity ≤ remaining`, on which truncated subtraction agrees exactly. -/
def Order.Fill (o : Order) (q : Nat) : Order :=
  { o with remainingQuantity := o.remainingQuantity - q }

/-- `Order::ToGoodTillCancel(price)`: gives a Market order a price and
rewrites its type.  The C++ method throws for non-Market orders; its only
caller (`AddOrder`) invokes it under an `OrderType::Market` test. -/
def Order.ToGoodTillCancel (o : Order) (p : Int) : Order :=
  { o with price := p, orderType := OrderType.GoodTillCancel }

/-- `Constants::InvalidPrice` from Constants.h.  The source initialises it
with `std::numeric_limits<Price>::quiet_NaN()`; for the integral type
`std::int32_t` that call returns `T()`, i.e. `0` (integers have no NaN),
even though the file comment announces "an invalid price sentinel (NaN)". -/
def Constants.InvalidPrice : Int := 0

/-- The `TradeInfo` struct: `(orderId, price, quantity)` for one side of a
trade. -/
structure TradeInfo where
  orderId : Nat
  price : Int
  quantity : Nat
deriving DecidableEq, Repr

/-- The `Trade` class: the bid-side and ask-side `TradeInfo` records. -/
structure Trade where
  bidTrade : TradeInfo
  askTrade : TradeInfo
deriving DecidableEq, Repr

/-- The `LevelData` aggregate of `data_`: per-price order count and summed
quantity.  Its declaration is in the missing Orderbook.h; the count is only
ever incremented, decremented by one, and compared against `0`
(`UpdateLevelData`), so `Int` models either a signed or an unsigned counter
faithfully with respect to every observation the code makes.  The quantity
field is a `uint32_t`, updated modulo `2^32`. -/
structure LevelData where
  count : Int
  quantity : Nat
deriving DecidableEq, Repr

/-- The three `LevelData::Action` values used by `UpdateLevelData`. -/
inductive LevelAction where
  | Add
  | Remove
  | MatchPartial
deriving DecidableEq, Repr

/-- A price level: the price and its FIFO queue of resting orders. -/
abbrev Level := Int × List Order

/-- One side of the book: the list of levels in the side's iteration order
(bids descending by price, asks ascending by price). -/
abbrev SideMap := List Level

/-- The `data_` map, modelled as an ascending association list. -/
abbrev DataMap := List (Int × LevelData)

/-- Look a price up in `data_`, defaulting like `std::map::operator[]`
(value-initialised `LevelData`, i.e. count 0, quantity 0). -/
def lookupData (d : DataMap) (p : Int) : LevelData :=
  match d.find? (fun e => e.1 == p) with
  | some e => e.2
  | none => ⟨0, 0⟩

/-- Erase a price from `data_`. -/
def eraseData (p : Int) (d : DataMap) : DataMap :=
  d.filter (fun e => e.1 != p)

/-- Store a value for a price in `data_`, keeping the keys ascending and
unique (a default-ordered `std::map`). -/
def storeData (p : Int) (v : LevelData) : DataMap → DataMap
  | [] => [(p, v)]
  | e :: rest =>
    if p < e.1 then (p, v) :: e :: rest
    else if p = e.1 then (p, v) :: rest
    else e :: storeData p v rest

/-- `Orderbook::UpdateLevelData(price, quantity, action)`:
`count += (Remove ? -1 : Add ? 1 : 0)`; the quantity is decreased for
Remove/Match and increased for Add (uint32 arithmetic); the entry is erased
when the count reaches zero. -/
def updateLevelData (d : DataMap) (price : Int) (quantity : Nat)
    (action : LevelAction) : DataMap :=
  let data := lookupData d price
  let count : Int := data.count +
    (match action with
     | LevelAction.Remove => -1
     | LevelAction.Add => 1
     | LevelAction.MatchPartial => 0)
  let qty : Nat :=
    match action with
    | LevelAction.Remove => sub32 data.quantity quantity
    | LevelAction.MatchPartial => sub32 data.quantity quantity
    | LevelAction.Add => add32 data.quantity quantity
  if count = 0 then eraseData price d else storeData price ⟨count, qty⟩ d

/-- `Orderbook::OnOrderAdded`: level-data Add with the initial quantity. -/
def onOrderAdded (d : DataMap) (o : Order) : DataMap :=
  updateLevelData d o.price o.initialQuantity LevelAction.Add

/-- `Orderbook::OnOrderCancelled`: level-data Remove with the remaining
quantity. -/
def onOrderCancelled (d : DataMap) (o : Order) : DataMap :=
  updateLevelData d o.price o.remainingQuantity LevelAction.Remove

/-- `Orderbook::OnOrderMatched`: Remove when fully filled, Match action
otherwise. -/
def onOrderMatched (d : DataMap) (price : Int) (quantity : Nat)
    (isFullyFilled : Bool) : DataMap :=
  updateLevelData d price quantity
    (if isFullyFilled then LevelAction.Remove else LevelAction.MatchPartial)

/-- The engine state: the two side maps and the level-data index.  The
`orders_` id index is kept in sync with the side maps by every path of
Orderbook.cpp (each insertion/erasure is paired), so it is modelled
implicitly as the orders reachable from the side maps. -/
structure Book where
  bids : SideMap
  asks : SideMap
  data : DataMap
deriving DecidableEq, Repr

/-- The freshly constructed, empty book. -/
def emptyBook : Book := ⟨[], [], []⟩

/-- All resting orders, in `bids_` iteration order then `asks_` iteration
order (levels in map order, each queue front to back). -/
def Book.orders (b : Book) : List Order :=
  (b.bids.flatMap Prod.snd) ++ (b.asks.flatMap Prod.snd)

/-- `orders_.contains(id)`: some live order carries this id. -/
def Book.containsId (b : Book) (id : Nat) : Bool :=
  b.orders.any (fun o => o.orderId == id)

/-- `orders_.at(id)`: the live order with this id (ids are unique among
live orders because `AddOrder` refuses duplicates). -/
def Book.findOrder (b : Book) (id : Nat) : Option Order :=
  b.orders.find? (fun o => o.orderId == id)

/-- `Orderbook::Size()`: the number of live orders. -/
def Book.size (b : Book) : Nat := b.orders.length

/-- `Orderbook::CanMatch(side, price)`: the opposite side is non-empty
and the price reaches its best (first-iterated) level. -/
def canMatch (b : Book) (side : Side) (price : Int) : Bool :=
  match side with
  | Side.Buy =>
    match b.asks with
    | [] => false
    | (bestAsk, _) :: _ => decide (price ≥ bestAsk)
  | Side.Sell =>
    match b.bids with
    | [] => false
    | (bestBid, _) :: _ => decide (price ≤ bestBid)

/-- The level walk inside `Orderbook::CanFullyFill`.  The two `continue`
conditions are transcribed with the C++ operator grouping
`(has_value && side==Buy && t > p) || (side==Sell && t < p)` — `&&` binds
tighter than `||`.  `threshold.value()` is only evaluated with the optional
set (both branches of `CanFullyFill` assign it); `getD 0` stands in for it.
Accumulation: return true as soon as the running requirement fits into a
level, otherwise subtract the level quantity and continue. -/
def canFullyFillLoop (side : Side) (price : Int) (threshold : Option Int) :
    DataMap → Nat → Bool
  | [], _ => false
  | (levelPrice, levelData) :: rest, quantity =>
    if (threshold.isSome && side == Side.Buy && decide (threshold.getD 0 > levelPrice))
        || (side == Side.Sell && decide (threshold.getD 0 < levelPrice)) then
      canFullyFillLoop side price threshold rest quantity
    else if (side == Side.Buy && decide (levelPrice > price))
        || (side == Side.Sell && decide (levelPrice < price)) then
      canFullyFillLoop side price threshold rest quantity
    else if quantity ≤ levelData.quantity then
      true
    else
      canFullyFillLoop side price threshold rest (quantity - levelData.quantity)

/-- `Orderbook::CanFullyFill(side, price, quantity)`: false unless
`CanMatch`; otherwise set the threshold to the best opposite price and walk
`data_`. -/
def canFullyFill (b : Book) (s : Side) (price : Int) (quantity : Nat) :
    Bool :=
  if !canMatch b s price then false
  else
    let threshold : Option Int :=
      match s with
      | Side.Buy => some ((b.asks.headD (0, [])).1)
      | Side.Sell => some ((b.bids.headD (0, [])).1)
    canFullyFillLoop s price threshold b.data quantity

/-- The result of the inner matching loop over one crossed pair of levels:
the emitted trades, the surviving bid queue, the surviving ask queue, and
the updated `data_`. -/
structure LevelMatch where
  trades : List Trade
  bidQueue : List Order
  askQueue : List Order
  data : DataMap
deriving DecidableEq, Repr

/-- The inner `while (!bids.empty() && !asks.empty())` loop of
`Orderbook::MatchOrders` (lines 400-430): take the two head orders, fill
both by the minimum of their remainings, pop whichever became filled, emit
the `Trade` carrying each side's own order id and resting price, and call
`OnOrderMatched` for each side with its post-fill filled flag (bid first,
then ask, as in the source). -/
def matchLevel (bids asks : List Order) (d : DataMap) : LevelMatch :=
  match bids, asks with
  | [], asksLeft => ⟨[], [], asksLeft, d⟩
  | bid :: bidsRest, [] => ⟨[], bid :: bidsRest, [], d⟩
  | bid :: bidsRest, ask :: asksRest =>
    let quantity := min bid.remainingQuantity ask.remainingQuantity
    let bid' := bid.Fill quantity
    let ask' := ask.Fill quantity
    let trade : Trade :=
      ⟨⟨bid.orderId, bid.price, quantity⟩, ⟨ask.orderId, ask.price, quantity⟩⟩
    let d2 := onOrderMatched (onOrderMatched d bid.price quantity bid'.IsFilled)
      ask.price quantity ask'.IsFilled
    if hb : bid'.IsFilled then
      if ha : ask'.IsFilled then
        let r := matchLevel bidsRest asksRest d2
        ⟨trade :: r.trades, r.bidQueue, r.askQueue, r.data⟩
      else
        let r := matchLevel bidsRest (ask' :: asksRest) d2
        ⟨trade :: r.trades, r.bidQueue, r.askQueue, r.data⟩
    else
      if ha : ask'.IsFilled then
        let r := matchLevel (bid' :: bidsRest) asksRest d2
        ⟨trade :: r.trades, r.bidQueue, r.askQueue, r.data⟩
      else
        -- unreachable: `quantity` is the min of the two remainings, so at
        -- least one order is filled after the fills
        let r := matchLevel (bid' :: bidsRest) (ask' :: asksRest) d2
        ⟨trade :: r.trades, r.bidQueue, r.askQueue, r.data⟩
termination_by bids.length + asks.length
decreasing_by
  all_goals simp_wf
  all_goals simp_all only [Order.IsFilled, Order.Fill, beq_iff_eq, List.length_cons]
  all_goals try omega
  all_goals simp only [bid', ask', quantity, Order.Fill] at hb ha
  all_goals omega

/-- The orders of one side map, in iteration order. -/
def sideOrders (s : SideMap) : List Order := s.flatMap Prod.snd

/-- The inner matching loop never adds orders to the bid queue. -/
theorem matchLevel_bid_le (bids asks : List Order) (d : DataMap) :
    (matchLevel bids asks d).bidQueue.length ≤ bids.length := by
  induction bids, asks, d using matchLevel.induct with
  | case1 d asksLeft => simp [matchLevel]
  | case2 d bid bidsRest => simp [matchLevel]
  | case3 d bid bidsRest ask asksRest q b' a' d2 hb ha ih =>
    simp only [q, b', a', d2] at ih
    unfold matchLevel
    rw [dif_pos hb, dif_pos ha]
    dsimp only
    simp only [List.length_cons] at ih ⊢
    omega
  | case4 d bid bidsRest ask asksRest q b' a' d2 hb ha ih =>
    simp only [q, b', a', d2] at ih
    unfold matchLevel
    rw [dif_pos hb, dif_neg ha]
    dsimp only
    simp only [List.length_cons] at ih ⊢
    omega
  | case5 d bid bidsRest ask asksRest q b' a' d2 hb ha ih =>
    simp only [q, b', a', d2] at ih
    unfold matchLevel
    rw [dif_neg hb, dif_pos ha]
    dsimp only
    simp only [List.length_cons] at ih ⊢
    omega
  | case6 d bid bidsRest ask asksRest q b' a' d2 hb ha ih =>
    simp only [q, b', a', d2] at ih
    unfold matchLevel
    rw [dif_neg hb, dif_neg ha]
    dsimp only
    simp only [List.length_cons] at ih ⊢
    omega

/-- The inner matching loop never adds orders to the ask queue. -/
theorem matchLevel_ask_le (bids asks : List Order) (d : DataMap) :
    (matchLevel bids asks d).askQueue.length ≤ asks.length := by
  induction bids, asks, d using matchLevel.induct with
  | case1 d asksLeft => simp [matchLevel]
  | case2 d bid bidsRest => simp [matchLevel]
  | case3 d bid bidsRest ask asksRest q b' a' d2 hb ha ih =>
    simp only [q, b', a', d2] at ih
    unfold matchLevel
    rw [dif_pos hb, dif_pos ha]
    dsimp only
    simp only [List.length_cons] at ih ⊢
    omega
  | case4 d bid bidsRest ask asksRest q b' a' d2 hb ha ih =>
    simp only [q, b', a', d2] at ih
    unfold matchLevel
    rw [dif_pos hb, dif_neg ha]
    dsimp only
    simp only [List.length_cons] at ih ⊢
    omega
  | case5 d bid bidsRest ask asksRest q b' a' d2 hb ha ih =>
    simp only [q, b', a', d2] at ih
    unfold matchLevel
    rw [dif_neg hb, dif_pos ha]
    dsimp only
    simp only [List.length_cons] at ih ⊢
    omega
  | case6 d bid bidsRest ask asksRest q b' a' d2 hb ha ih =>
    simp only [q, b', a', d2] at ih
    unfold matchLevel
    rw [dif_neg hb, dif_neg ha]
    dsimp only
    simp only [List.length_cons] at ih ⊢
    omega

/-- When both surviving queues are non-empty the inner loop consumed at
least one order: each iteration pops at least one of the two heads (the
minimum is attained by one of the remainings). -/
theorem matchLevel_length_lt (bids asks : List Order) (d : DataMap)
    (hbne : (matchLevel bids asks d).bidQueue ≠ [])
    (hane : (matchLevel bids asks d).askQueue ≠ []) :
    (matchLevel bids asks d).bidQueue.length + (matchLevel bids asks d).askQueue.length
      < bids.length + asks.length := by
  match bids, asks with
  | [], asksLeft => simp [matchLevel] at hbne
  | bid :: bidsRest, [] => simp [matchLevel] at hane
  | bid :: bidsRest, ask :: asksRest =>
    unfold matchLevel
    by_cases hb : (bid.Fill (min bid.remainingQuantity ask.remainingQuantity)).IsFilled = true
    · by_cases ha : (ask.Fill (min bid.remainingQuantity ask.remainingQuantity)).IsFilled = true
      · rw [dif_pos hb, dif_pos ha]
        dsimp only
        have h1 := matchLevel_bid_le bidsRest asksRest
          (onOrderMatched (onOrderMatched d bid.price (min bid.remainingQuantity ask.remainingQuantity)
            (bid.Fill (min bid.remainingQuantity ask.remainingQuantity)).IsFilled)
            ask.price (min bid.remainingQuantity ask.remainingQuantity)
            (ask.Fill (min bid.remainingQuantity ask.remainingQuantity)).IsFilled)
        have h2 := matchLevel_ask_le bidsRest asksRest
          (onOrderMatched (onOrderMatched d bid.price (min bid.remainingQuantity ask.remainingQuantity)
            (bid.Fill (min bid.remainingQuantity ask.remainingQuantity)).IsFilled)
            ask.price (min bid.remainingQuantity ask.remainingQuantity)
            (ask.Fill (min bid.remainingQuantity ask.remainingQuantity)).IsFilled)
        simp only [List.length_cons]
        omega
      · rw [dif_pos hb, dif_neg ha]
        dsimp only
        have h1 := matchLevel_bid_le bidsRest
          (ask.Fill (min bid.remainingQuantity ask.remainingQuantity) :: asksRest)
          (onOrderMatched (onOrderMatched d bid.price (min bid.remainingQuantity ask.remainingQuantity)
            (bid.Fill (min bid.remainingQuantity ask.remainingQuantity)).IsFilled)
            ask.price (min bid.remainingQuantity ask.remainingQuantity)
            (ask.Fill (min bid.remainingQuantity ask.remainingQuantity)).IsFilled)
        have h2 := matchLevel_ask_le bidsRest
          (ask.Fill (min bid.remainingQuantity ask.remainingQuantity) :: asksRest)
          (onOrderMatched (onOrderMatched d bid.price (min bid.remainingQuantity ask.remainingQuantity)
            (bid.Fill (min bid.remainingQuantity ask.remainingQuantity)).IsFilled)
            ask.price (min bid.remainingQuantity ask.remainingQuantity)
            (ask.Fill (min bid.remainingQuantity ask.remainingQuantity)).IsFilled)
        simp only [List.length_cons] at h1 h2 ⊢
        omega
    · by_cases ha : (ask.Fill (min bid.remainingQuantity ask.remainingQuantity)).IsFilled = true
      · rw [dif_neg hb, dif_pos ha]
        dsimp only
        have h1 := matchLevel_bid_le
          (bid.Fill (min bid.remainingQuantity ask.remainingQuantity) :: bidsRest) asksRest
          (onOrderMatched (onOrderMatched d bid.price (min bid.remainingQuantity ask.remainingQuantity)
            (bid.Fill (min bid.remainingQuantity ask.remainingQuantity)).IsFilled)
            ask.price (min bid.remainingQuantity ask.remainingQuantity)
            (ask.Fill (min bid.remainingQuantity ask.remainingQuantity)).IsFilled)
        have h2 := matchLevel_ask_le
          (bid.Fill (min bid.remainingQuantity ask.remainingQuantity) :: bidsRest) asksRest
          (onOrderMatched (onOrderMatched d bid.price (min bid.remainingQuantity ask.remainingQuantity)
            (bid.Fill (min bid.remainingQuantity ask.remainingQuantity)).IsFilled)
            ask.price (min bid.remainingQuantity ask.remainingQuantity)
            (ask.Fill (min bid.remainingQuantity ask.remainingQuantity)).IsFilled)
        simp only [List.length_cons] at h1 h2 ⊢
        omega
      · exfalso
        simp only [Order.IsFilled, Order.Fill, beq_iff_eq, inf_eq_min] at hb ha
        omega

/-- The result of the outer matching loop: trades, surviving bids map,
surviving asks map, updated `data_`. -/
structure LoopResult where
  trades : List Trade
  bids : SideMap
  asks : SideMap
  data : DataMap
deriving DecidableEq, Repr

/-- The outer `while (true)` loop of `Orderbook::MatchOrders` (lines
389-443): stop when a side is empty or the best bid is below the best ask;
otherwise run the inner loop on the two best levels, then erase whichever
level queue came back empty from its side map *and from `data_`* (the
source erases `data_[bidPrice]`/`data_[askPrice]` outright here, in
addition to the count-based erasure already performed inside
`UpdateLevelData`), and repeat. -/
def matchLoop : SideMap → SideMap → DataMap → LoopResult
  | [], asks, d => ⟨[], [], asks, d⟩
  | bidLevel :: restBids, [], d => ⟨[], bidLevel :: restBids, [], d⟩
  | (bidPrice, bidQ) :: restBids, (askPrice, askQ) :: restAsks, d =>
    if bidPrice < askPrice then
      ⟨[], (bidPrice, bidQ) :: restBids, (askPrice, askQ) :: restAsks, d⟩
    else
      let r := matchLevel bidQ askQ d
      if hb : r.bidQueue.isEmpty then
        if ha : r.askQueue.isEmpty then
          let next := matchLoop restBids restAsks
            (eraseData askPrice (eraseData bidPrice r.data))
          ⟨r.trades ++ next.trades, next.bids, next.asks, next.data⟩
        else
          let next := matchLoop restBids ((askPrice, r.askQueue) :: restAsks)
            (eraseData bidPrice r.data)
          ⟨r.trades ++ next.trades, next.bids, next.asks, next.data⟩
      else
        if ha : r.askQueue.isEmpty then
          let next := matchLoop ((bidPrice, r.bidQueue) :: restBids) restAsks
            (eraseData askPrice r.data)
          ⟨r.trades ++ next.trades, next.bids, next.asks, next.data⟩
        else
          let next := matchLoop ((bidPrice, r.bidQueue) :: restBids)
            ((askPrice, r.askQueue) :: restAsks) r.data
          ⟨r.trades ++ next.trades, next.bids, next.asks, next.data⟩
termination_by bids asks _ =>
  (sideOrders bids).length + (sideOrders asks).length + bids.length + asks.length
decreasing_by
  all_goals simp only [r, List.isEmpty_iff] at hb ha
  all_goals simp only [sideOrders, List.flatMap_cons, List.length_append, List.length_cons]
  all_goals have h1 := matchLevel_bid_le bidQ askQ d
  all_goals have h2 := matchLevel_ask_le bidQ askQ d
  · omega
  · have h3 : (matchLevel bidQ askQ d).bidQueue.length = 0 := by simp [hb]
    omega
  · have h3 : (matchLevel bidQ askQ d).askQueue.length = 0 := by simp [ha]
    omega
  · have h4 := matchLevel_length_lt bidQ askQ d hb ha
    omega

/-- Erase the first order with the given id from a FIFO queue (the C++
erases through the stored iterator; ids are unique among live orders, and
the queue holding the id is selected by the stored order's side and
price). -/
def eraseFirstById (id : Nat) : List Order → List Order
  | [] => []
  | o :: rest => if o.orderId = id then rest else o :: eraseFirstById id rest

/-- Remove an order (by id) from the level at the given price, dropping the
level if its queue becomes empty — the queue-erase plus
`if (orders.empty()) ...erase(price)` steps of `CancelOrderInternal`. -/
def removeFromSide (price : Int) (id : Nat) : SideMap → SideMap
  | [] => []
  | (p, q) :: rest =>
    if p = price then
      let q2 := eraseFirstById id q
      if q2.isEmpty then rest else (p, q2) :: rest
    else (p, q) :: removeFromSide price id rest

/-- `Orderbook::CancelOrderInternal(orderId)`: no-op for an unknown id;
otherwise erase the order from its side (chosen by the order's side, at the
order's price), then run the `OnOrderCancelled` level-data hook with the
order's remaining quantity. -/
def cancelOrderInternal (b : Book) (id : Nat) : Book :=
  match b.findOrder id with
  | none => b
  | some order =>
    if order.side = Side.Sell then
      { b with asks := removeFromSide order.price order.orderId b.asks,
               data := onOrderCancelled b.data order }
    else
      { b with bids := removeFromSide order.price order.orderId b.bids,
               data := onOrderCancelled b.data order }

/-- `Orderbook::CancelOrder(orderId)` (public entry; the lock is not
modelled). -/
def cancelOrder (b : Book) (id : Nat) : Book := cancelOrderInternal b id

/-- `Orderbook::CancelOrders(orderIds)`: cancel each id in order. -/
def cancelOrders (b : Book) (ids : List Nat) : Book :=
  ids.foldl cancelOrderInternal b

/-- The first Fill-And-Kill tail block of `MatchOrders` (lines 446-452):
if the front order of the best bid level is a Fill-And-Kill, cancel it.
`bids.front()` on an empty level queue would be undefined behaviour in the
source; the book never holds an empty level, and the model leaves the book
unchanged in that case. -/
def fakCancelTopBid (b : Book) : Book :=
  match b.bids with
  | (_, order :: _) :: _ =>
    if order.orderType = OrderType.FillAndKill then cancelOrder b order.orderId
    else b
  | _ => b

/-- The second Fill-And-Kill tail block of `MatchOrders` (lines 454-460):
the same for the front order of the best ask level. -/
def fakCancelTopAsk (b : Book) : Book :=
  match b.asks with
  | (_, order :: _) :: _ =>
    if order.orderType = OrderType.FillAndKill then cancelOrder b order.orderId
    else b
  | _ => b

/-- `Orderbook::MatchOrders()`: run the outer loop, then cancel a
Fill-And-Kill order left at the front of the best bid level, then the same
for the best ask level. -/
def matchOrders (b : Book) : List Trade × Book :=
  let r := matchLoop b.bids b.asks b.data
  (r.trades, fakCancelTopAsk (fakCancelTopBid ⟨r.bids, r.asks, r.data⟩))

/-- Append an order to its price level on the bid side
(`bids_[price].push_back(order)`), keeping the map's descending key
order. -/
def insertBid (o : Order) : SideMap → SideMap
  | [] => [(o.price, [o])]
  | (p, q) :: rest =>
    if o.price > p then (o.price, [o]) :: (p, q) :: rest
    else if o.price = p then (p, q ++ [o]) :: rest
    else (p, q) :: insertBid o rest

/-- Append an order to its price level on the ask side
(`asks_[price].push_back(order)`), keeping the map's ascending key
order. -/
def insertAsk (o : Order) : SideMap → SideMap
  | [] => [(o.price, [o])]
  | (p, q) :: rest =>
    if o.price < p then (o.price, [o]) :: (p, q) :: rest
    else if o.price = p then (p, q ++ [o]) :: rest
    else (p, q) :: insertAsk o rest

/-- `asks_.rbegin()`: the worst (last-iterated, highest) ask price; only
read when `asks_` is non-empty. -/
def worstAsk (b : Book) : Int := (b.asks.getLastD (0, [])).1

/-- `bids_.rbegin()`: the worst (last-iterated, lowest) bid price; only
read when `bids_` is non-empty. -/
def worstBid (b : Book) : Int := (b.bids.getLastD (0, [])).1

/-- The insertion part of `AddOrder` (lines 516-534): push the order onto
its side at its price and run the `OnOrderAdded` level-data hook. -/
def placeOrder (b : Book) (o : Order) : Book :=
  let b1 :=
    if o.side = Side.Buy then { b with bids := insertBid o b.bids }
    else { b with asks := insertAsk o b.asks }
  { b1 with data := onOrderAdded b1.data o }

/-- `AddOrder` after the Market conversion: the Fill-And-Kill gate, the
Fill-Or-Kill gate (with the order's initial quantity), then insertion and
the matching loop. -/
def addOrderWorker (b : Book) (o : Order) : List Trade × Book :=
  if o.orderType = OrderType.FillAndKill ∧ ¬canMatch b o.side o.price then ([], b)
  else if o.orderType = OrderType.FillOrKill
      ∧ ¬canFullyFill b o.side o.price o.initialQuantity then ([], b)
  else matchOrders (placeOrder b o)

/-- `Orderbook::AddOrder(order)`: refuse duplicate ids; rewrite a Market
order in place as Good-Till-Cancel at the worst opposite price (if the
opposite side is empty, return no trades); then the gates, insertion and
matching. -/
def addOrder (b : Book) (o : Order) : List Trade × Book :=
  if b.containsId o.orderId then ([], b)
  else if o.orderType = OrderType.Market then
    if o.side = Side.Buy ∧ b.asks ≠ [] then
      addOrderWorker b (o.ToGoodTillCancel (worstAsk b))
    else if o.side = Side.Sell ∧ b.bids ≠ [] then
      addOrderWorker b (o.ToGoodTillCancel (worstBid b))
    else ([], b)
  else addOrderWorker b o

/-- The `OrderModify` request of OrderModify.h: id and the new side, price,
quantity. -/
structure OrderModify where
  orderId : Nat
  price : Int
  side : Side
  quantity : Nat
deriving DecidableEq, Repr

/-- `OrderModify::ToOrderPointer(type)`: a fresh order with the given type
and the request's id, side, price and quantity. -/
def OrderModify.ToOrderPointer (m : OrderModify) (t : OrderType) : Order :=
  Order.make t m.orderId m.side m.price m.quantity

/-- `Orderbook::ModifyOrder(order)`: no-op for an unknown id; otherwise
read the existing order's type, cancel, and re-add a fresh order built from
the request with the remembered type. -/
def modifyOrder (b : Book) (m : OrderModify) : List Trade × Book :=
  match b.findOrder m.orderId with
  | none => ([], b)
  | some existing =>
    addOrder (cancelOrder b m.orderId) (m.ToOrderPointer existing.orderType)

/-- One public mutating command of the engine. -/
inductive Command where
  | add (o : Order)
  | cancel (id : Nat)
  | modify (m : OrderModify)
  | cancelMany (ids : List Nat)
deriving DecidableEq, Repr

/-- Apply one public command to the book (dropping returned trades). -/
def applyCommand (b : Book) : Command → Book
  | Command.add o => (addOrder b o).2
  | Command.cancel id => cancelOrder b id
  | Command.modify m => (modifyOrder b m).2
  | Command.cancelMany ids => cancelOrders b ids

/-- Run a command sequence from the freshly constructed book; the reachable
engine states are exactly the results of such runs. -/
def runCommands (cs : List Command) : Book := cs.foldl applyCommand emptyBook

namespace InputHandler

/-- The digits read by `std::from_chars`: the longest leading run of
decimal digits. -/
def leadingDigits (cs : List Char) : List Char := cs.takeWhile Char.isDigit

/-- The numeric value of a digit string. -/
def natOfDigits (cs : List Char) : Nat :=
  cs.foldl (fun a c => a * 10 + (c.toNat - 48)) 0

/-- Model of `std::from_chars(str.data(), str.data() + str.size(), value)`
with `std::int64_t value{}` as `InputHandler::ToNumber` uses it: an
optional leading minus sign followed by the longest run of decimal digits.
The C++ call's return value is discarded, so on failure (no digits) or on
`errc::result_out_of_range` (magnitude beyond `int64_t`) the output object
keeps its value-initialised `0`. -/
def fromCharsInt64 (s : String) : Int :=
  match s.toList with
  | '-' :: rest =>
    let ds := leadingDigits rest
    if ds.isEmpty then 0
    else if (natOfDigits ds : Int) > 9223372036854775808 then 0
    else -(natOfDigits ds : Int)
  | cs =>
    let ds := leadingDigits cs
    if ds.isEmpty then 0
    else if (natOfDigits ds : Int) > 9223372036854775807 then 0
    else (natOfDigits ds : Int)

/-- `InputHandler::ToNumber(str)`: run `from_chars` into an `int64_t`
(ignoring its error code), throw `"Value is below zero."` for a negative
value, and return `static_cast<std::uint32_t>(value)` (reduction modulo
`2^32`). -/
def ToNumber (s : String) : Except String Nat :=
  let value := fromCharsInt64 s
  if value < 0 then Except.error "Value is below zero."
  else Except.ok (value.toNat % 4294967296)

/-- Conversion of the returned `uint32_t` to the `Price` type
(`std::int32_t`), as performed by the implicit conversion in
`InputHandler::ParsePrice`: two's-complement reduction modulo `2^32`. -/
def toInt32 (n : Nat) : Int :=
  let m := n % 4294967296
  if m < 2147483648 then (m : Int) else (m : Int) - 4294967296

/-- `InputHandler::ParsePrice(str)`: empty tokens are an error, otherwise
`ToNumber` converted to `Price`. -/
def ParsePrice (s : String) : Except String Int :=
  if s.isEmpty then Except.error "Unknown Price"
  else (ToNumber s).map toInt32

end InputHandler

/-- Modelled from the spec ("A modify is defined as a cancel followed by an
add that re-uses the same id, preserving the original order type of the
existing order (retrieved before the cancel) and adopting the new
side/price/quantity from the modify request. ... If the id is unknown,
returns no trades and makes no state change."): the cancel-then-add
composition that `ModifyOrder` is claimed to equal. -/
def modifyOrderSpec (b : Book) (m : OrderModify) : List Trade × Book :=
  match b.findOrder m.orderId with
  | none => ([], b)
  | some existing =>
    addOrder (cancelOrder b m.orderId)
      (Order.make existing.orderType m.orderId m.side m.price m.quantity)

/-- Whenever both sides are non-empty, the first-iterated (best) bid price
is below the first-iterated (best) ask price. -/
def topsOrdered (b : Book) : Prop :=
  match b.bids, b.asks with
  | (bp, _) :: _, (ap, _) :: _ => bp < ap
  | _, _ => True

/-- Both side maps are keyed in their iteration order: bids strictly
descending, asks strictly ascending. -/
def sortedSides (b : Book) : Prop :=
  (b.bids.map Prod.fst).Pairwise (fun x y => x > y)
  ∧ (b.asks.map Prod.fst).Pairwise (fun x y => x < y)

/-- No order in the list is a Fill-And-Kill. -/
def noFAKOrders (l : List Order) : Prop :=
  ∀ o ∈ l, o.orderType ≠ OrderType.FillAndKill

/-- Each level of the side holds a non-empty queue of orders carrying the
level's price and the side's direction. -/
def consistentSide (s : SideMap) (dir : Side) : Prop :=
  ∀ lv ∈ s, lv.2 ≠ [] ∧ ∀ o ∈ lv.2, o.price = lv.1 ∧ o.side = dir

/-- The well-formedness invariant maintained by every public operation
(the level-data index is deliberately not part of it — see the C1
analysis). -/
def WFBook (b : Book) : Prop :=
  sortedSides b ∧ consistentSide b.bids Side.Buy ∧ consistentSide b.asks Side.Sell
  ∧ topsOrdered b ∧ noFAKOrders b.orders ∧ (b.orders.map Order.orderId).Nodup

/-- The reachability test of `CanFullyFill` as the spec words it: for a Buy
at limit `L`, `best_ask ≤ p ∧ p ≤ L`; for a Sell at limit `L`,
`L ≤ p ∧ p ≤ best_bid` (`threshold` is the best opposite price). -/
def isReachable (side : Side) (limit threshold levelPrice : Int) : Bool :=
  match side with
  | Side.Buy => decide (threshold ≤ levelPrice) && decide (levelPrice ≤ limit)
  | Side.Sell => decide (limit ≤ levelPrice) && decide (levelPrice ≤ threshold)

/-- The sum of `data_[p].quantity` over every reachable price `p`. -/
def reachableSum (b : Book) (side : Side) (limit : Int) : Nat :=
  let threshold : Int :=
    match side with
    | Side.Buy => (b.asks.headD (0, [])).1
    | Side.Sell => (b.bids.headD (0, [])).1
  ((b.data.filter (fun e => isReachable side limit threshold e.1)).map
    (fun e => e.2.quantity)).sum

/-- The best (highest) resting bid price, when bids exist. -/
def bestBidPrice (b : Book) : Option Int := (b.bids.map Prod.fst).max?

/-- The best (lowest) resting ask price, when asks exist. -/
def bestAskPrice (b : Book) : Option Int := (b.asks.map Prod.fst).min?

/-- Order lists related by matching: ids, types, sides and prices of the
output all come from the input (fills only shrink remainings). -/
def ordersFrom (src out : List Order) : Prop :=
  ∀ o ∈ out, ∃ o₀ ∈ src, o.orderId = o₀.orderId ∧ o.orderType = o₀.orderType
    ∧ o.side = o₀.side ∧ o.price = o₀.price

/-- Only the head order of the first (best) bid level may be a
Fill-And-Kill; every other resting bid is not. -/
def fakOnlyTopBid (bids : SideMap) : Prop :=
  match bids with
  | [] => True
  | (_, q) :: rest => noFAKOrders q.tail ∧ ∀ lv ∈ rest, noFAKOrders lv.2

/-- Only the head order of the first (best) ask level may be a
Fill-And-Kill. -/
def fakOnlyTopAsk (asks : SideMap) : Prop :=
  match asks with
  | [] => True
  | (_, q) :: rest => noFAKOrders q.tail ∧ ∀ lv ∈ rest, noFAKOrders lv.2

/-- A concrete one-ask demonstration book: a single resting sell of
initial/remaining quantity 5 at price 100, with matching level data. -/
def c2DemoBook : Book :=
  ⟨[], [(100, [Order.make OrderType.GoodTillCancel 1 Side.Sell 100 5])],
   [(100, ⟨1, 5⟩)]⟩

/-- The command sequence exhibiting the level-data bug: two resting sells
at price 100 (3 and 4 lots), then an aggressive buy of 5 lots that fills
the first sell entirely and the second partially. -/
def c1Trace : List Command :=
  [Command.add (Order.make OrderType.GoodTillCancel 1 Side.Sell 100 3),
   Command.add (Order.make OrderType.GoodTillCancel 2 Side.Sell 100 4),
   Command.add (Order.make OrderType.GoodTillCancel 3 Side.Buy 100 5)]

theorem eraseFirstById_sublist (id : Nat) (q : List Order) :
    (eraseFirstById id q).Sublist q := by
  induction q with
  | nil => simp [eraseFirstById]
  | cons o rest ih =>
    unfold eraseFirstById
    split
    · exact (List.sublist_cons_self o rest)
    · exact List.Sublist.cons₂ o ih

theorem removeFromSide_keys_sublist (p : Int) (id : Nat) (s : SideMap) :
    ((removeFromSide p id s).map Prod.fst).Sublist (s.map Prod.fst) := by
  induction s with
  | nil => simp [removeFromSide]
  | cons lv rest ih =>
    match lv with
    | (k, q) =>
      unfold removeFromSide
      split
      · dsimp only
        split
        · exact (List.map_cons Prod.fst (k, q) rest) ▸ List.sublist_cons_self _ _
        · simp only [List.map_cons]
          exact List.Sublist.cons₂ _ (List.Sublist.refl _)
      · simp only [List.map_cons]
        exact List.Sublist.cons₂ _ ih

theorem removeFromSide_orders_sublist (p : Int) (id : Nat) (s : SideMap) :
    (sideOrders (removeFromSide p id s)).Sublist (sideOrders s) := by
  induction s with
  | nil => simp [removeFromSide]
  | cons lv rest ih =>
    match lv with
    | (k, q) =>
      unfold removeFromSide
      split
      · dsimp only
        split
        · simp only [sideOrders, List.flatMap_cons]
          exact List.sublist_append_right _ _
        · simp only [sideOrders, List.flatMap_cons]
          exact List.Sublist.append (eraseFirstById_sublist id q) (List.Sublist.refl _)
      · simp only [sideOrders, List.flatMap_cons]
        exact List.Sublist.append (List.Sublist.refl _) ih

theorem removeFromSide_consistent (p : Int) (id : Nat) (s : SideMap) (dir : Side)
    (h : consistentSide s dir) : consistentSide (removeFromSide p id s) dir := by
  induction s with
  | nil => simpa [removeFromSide] using h
  | cons lv rest ih =>
    match lv with
    | (k, q) =>
      have hrest : consistentSide rest dir := fun lv2 h2 => h lv2 (List.mem_cons_of_mem _ h2)
      have hq := h (k, q) (List.mem_cons_self _ _)
      unfold removeFromSide
      split
      · dsimp only
        split
        · exact hrest
        · next hne =>
          intro lv2 h2
          rcases List.mem_cons.mp h2 with h3 | h3
          · subst h3
            refine ⟨by simpa using hne, ?_⟩
            intro o ho
            exact hq.2 o ((eraseFirstById_sublist id q).subset ho)
          · exact hrest lv2 h3
      · intro lv2 h2
        rcases List.mem_cons.mp h2 with h3 | h3
        · subst h3
          exact hq
        · exact ih hrest lv2 h3

theorem head_le_of_sublist_desc (l l2 : List Int) (h : l2.Sublist l)
    (hs : l.Pairwise (fun x y => x > y)) (x y : Int)
    (hx : l.head? = some x) (hy : l2.head? = some y) : y ≤ x := by
  cases l2 with
  | nil => simp at hy
  | cons a t =>
    cases l with
    | nil => simp at hx
    | cons b t2 =>
      simp only [List.head?_cons, Option.some_inj] at hx hy
      have hmem : a ∈ b :: t2 := h.subset (List.mem_cons_self _ _)
      rcases List.mem_cons.mp hmem with h2 | h2
      · omega
      · have h3 := (List.pairwise_cons.mp hs).1 a h2
        omega

theorem head_ge_of_sublist_asc (l l2 : List Int) (h : l2.Sublist l)
    (hs : l.Pairwise (fun x y => x < y)) (x y : Int)
    (hx : l.head? = some x) (hy : l2.head? = some y) : x ≤ y := by
  cases l2 with
  | nil => simp at hy
  | cons a t =>
    cases l with
    | nil => simp at hx
    | cons b t2 =>
      simp only [List.head?_cons, Option.some_inj] at hx hy
      have hmem : a ∈ b :: t2 := h.subset (List.mem_cons_self _ _)
      rcases List.mem_cons.mp hmem with h2 | h2
      · omega
      · have h3 := (List.pairwise_cons.mp hs).1 a h2
        omega

theorem topsOrdered_shrink (b b2 : Book) (hs : sortedSides b) (ht : topsOrdered b)
    (hb : (b2.bids.map Prod.fst).Sublist (b.bids.map Prod.fst))
    (ha : (b2.asks.map Prod.fst).Sublist (b.asks.map Prod.fst)) : topsOrdered b2 := by
  unfold topsOrdered
  match h2b : b2.bids, h2a : b2.asks with
  | [], _ => trivial
  | _ :: _, [] => trivial
  | (bp2, q1) :: r1, (ap2, q2) :: r2 =>
    rw [h2b] at hb
    rw [h2a] at ha
    match hbb : b.bids, hba : b.asks with
    | [], _ =>
      rw [hbb] at hb
      simp at hb
    | _ :: _, [] =>
      rw [hba] at ha
      simp at ha
    | (bp, _) :: _, (ap, _) :: _ =>
      rw [hbb] at hb
      rw [hba] at ha
      have h1 : bp2 ≤ bp := by
        apply head_le_of_sublist_desc _ _ hb
        · have := hs.1
          rw [hbb] at this
          simpa using this
        · simp
        · simp
      have h2 : ap ≤ ap2 := by
        apply head_ge_of_sublist_asc _ _ ha
        · have := hs.2
          rw [hba] at this
          simpa using this
        · simp
        · simp
      have h3 : bp < ap := by
        have := ht
        unfold topsOrdered at this
        rw [hbb, hba] at this
        exact this
      omega

theorem cancelOrderInternal_bids_keys (b : Book) (id : Nat) :
    ((cancelOrderInternal b id).bids.map Prod.fst).Sublist (b.bids.map Prod.fst) := by
  unfold cancelOrderInternal
  split
  · exact List.Sublist.refl _
  · split
    · exact List.Sublist.refl _
    · exact removeFromSide_keys_sublist _ _ _

theorem cancelOrderInternal_asks_keys (b : Book) (id : Nat) :
    ((cancelOrderInternal b id).asks.map Prod.fst).Sublist (b.asks.map Prod.fst) := by
  unfold cancelOrderInternal
  split
  · exact List.Sublist.refl _
  · split
    · exact removeFromSide_keys_sublist _ _ _
    · exact List.Sublist.refl _

theorem cancelOrderInternal_orders (b : Book) (id : Nat) :
    ((cancelOrderInternal b id).orders).Sublist b.orders := by
  unfold cancelOrderInternal
  split
  · exact List.Sublist.refl _
  · split
    · exact List.Sublist.append (List.Sublist.refl _) (removeFromSide_orders_sublist _ _ _)
    · exact List.Sublist.append (removeFromSide_orders_sublist _ _ _) (List.Sublist.refl _)

theorem cancelOrderInternal_wf (b : Book) (id : Nat) (h : WFBook b) :
    WFBook (cancelOrderInternal b id) := by
  obtain ⟨hs, hcb, hca, ht, hf, hnd⟩ := h
  refine ⟨⟨?_, ?_⟩, ?_, ?_, ?_, ?_, ?_⟩
  · exact List.Pairwise.sublist (cancelOrderInternal_bids_keys b id) hs.1
  · exact List.Pairwise.sublist (cancelOrderInternal_asks_keys b id) hs.2
  · unfold cancelOrderInternal
    split
    · exact hcb
    · split
      · exact hcb
      · exact removeFromSide_consistent _ _ _ _ hcb
  · unfold cancelOrderInternal
    split
    · exact hca
    · split
      · exact removeFromSide_consistent _ _ _ _ hca
      · exact hca
  · exact topsOrdered_shrink b _ hs ht (cancelOrderInternal_bids_keys b id)
      (cancelOrderInternal_asks_keys b id)
  · intro o ho
    exact hf o ((cancelOrderInternal_orders b id).subset ho)
  · exact List.Nodup.sublist (List.Sublist.map _ (cancelOrderInternal_orders b id)) hnd

theorem cancelOrders_wf (b : Book) (ids : List Nat) (h : WFBook b) :
    WFBook (cancelOrders b ids) := by
  unfold cancelOrders
  induction ids generalizing b with
  | nil => exact h
  | cons i rest ih =>
    simp only [List.foldl_cons]
    exact ih _ (cancelOrderInternal_wf b i h)

theorem insertBid_keys_mem (o : Order) (s : SideMap) (k : Int)
    (hk : k ∈ (insertBid o s).map Prod.fst) : k = o.price ∨ k ∈ s.map Prod.fst := by
  induction s with
  | nil =>
    simp only [insertBid, List.map_cons, List.map_nil] at hk
    rcases List.mem_cons.mp hk with h2 | h2
    · exact Or.inl h2
    · simp at h2
  | cons lv rest ih =>
    match lv with
    | (p, q) =>
      unfold insertBid at hk
      split at hk
      · simp only [List.map_cons] at hk ⊢
        rcases List.mem_cons.mp hk with h2 | h2
        · exact Or.inl h2
        · exact Or.inr h2
      · split at hk
        · simp only [List.map_cons] at hk ⊢
          rcases List.mem_cons.mp hk with h2 | h2
          · exact Or.inr (List.mem_cons.mpr (Or.inl h2))
          · exact Or.inr (List.mem_cons.mpr (Or.inr h2))
        · simp only [List.map_cons] at hk ⊢
          rcases List.mem_cons.mp hk with h2 | h2
          · exact Or.inr (List.mem_cons.mpr (Or.inl h2))
          · rcases ih h2 with h3 | h3
            · exact Or.inl h3
            · exact Or.inr (List.mem_cons.mpr (Or.inr h3))

theorem insertAsk_keys_mem (o : Order) (s : SideMap) (k : Int)
    (hk : k ∈ (insertAsk o s).map Prod.fst) : k = o.price ∨ k ∈ s.map Prod.fst := by
  induction s with
  | nil =>
    simp only [insertAsk, List.map_cons, List.map_nil] at hk
    rcases List.mem_cons.mp hk with h2 | h2
    · exact Or.inl h2
    · simp at h2
  | cons lv rest ih =>
    match lv with
    | (p, q) =>
      unfold insertAsk at hk
      split at hk
      · simp only [List.map_cons] at hk ⊢
        rcases List.mem_cons.mp hk with h2 | h2
        · exact Or.inl h2
        · exact Or.inr h2
      · split at hk
        · simp only [List.map_cons] at hk ⊢
          rcases List.mem_cons.mp hk with h2 | h2
          · exact Or.inr (List.mem_cons.mpr (Or.inl h2))
          · exact Or.inr (List.mem_cons.mpr (Or.inr h2))
        · simp only [List.map_cons] at hk ⊢
          rcases List.mem_cons.mp hk with h2 | h2
          · exact Or.inr (List.mem_cons.mpr (Or.inl h2))
          · rcases ih h2 with h3 | h3
            · exact Or.inl h3
            · exact Or.inr (List.mem_cons.mpr (Or.inr h3))

theorem insertBid_keys_sorted (o : Order) (s : SideMap)
    (h : (s.map Prod.fst).Pairwise (fun x y => x > y)) :
    ((insertBid o s).map Prod.fst).Pairwise (fun x y => x > y) := by
  induction s with
  | nil => simp [insertBid]
  | cons lv rest ih =>
    match lv with
    | (p, q) =>
      simp only [List.map_cons] at h
      have hp := List.pairwise_cons.mp h
      unfold insertBid
      split
      · next hgt =>
        simp only [List.map_cons]
        refine List.pairwise_cons.mpr ⟨?_, h⟩
        intro k hk
        rcases List.mem_cons.mp hk with h2 | h2
        · omega
        · have := hp.1 k h2
          omega
      · split
        · next heq =>
          simpa using h
        · next hng heq =>
          simp only [List.map_cons]
          refine List.pairwise_cons.mpr ⟨?_, ih hp.2⟩
          intro k hk
          rcases insertBid_keys_mem o rest k hk with h2 | h2
          · omega
          · exact hp.1 k h2

theorem insertAsk_keys_sorted (o : Order) (s : SideMap)
    (h : (s.map Prod.fst).Pairwise (fun x y => x < y)) :
    ((insertAsk o s).map Prod.fst).Pairwise (fun x y => x < y) := by
  induction s with
  | nil => simp [insertAsk]
  | cons lv rest ih =>
    match lv with
    | (p, q) =>
      simp only [List.map_cons] at h
      have hp := List.pairwise_cons.mp h
      unfold insertAsk
      split
      · next hgt =>
        simp only [List.map_cons]
        refine List.pairwise_cons.mpr ⟨?_, h⟩
        intro k hk
        rcases List.mem_cons.mp hk with h2 | h2
        · omega
        · have := hp.1 k h2
          omega
      · split
        · next heq =>
          simpa using h
        · next hng heq =>
          simp only [List.map_cons]
          refine List.pairwise_cons.mpr ⟨?_, ih hp.2⟩
          intro k hk
          rcases insertAsk_keys_mem o rest k hk with h2 | h2
          · omega
          · exact hp.1 k h2

theorem insertBid_consistent (o : Order) (s : SideMap)
    (h : consistentSide s Side.Buy) (ho : o.side = Side.Buy) :
    consistentSide (insertBid o s) Side.Buy := by
  induction s with
  | nil =>
    intro lv hlv
    simp only [insertBid] at hlv
    rcases List.mem_singleton.mp hlv
    exact ⟨by simp, by intro o2 ho2; rcases List.mem_singleton.mp ho2; exact ⟨rfl, ho⟩⟩
  | cons lv0 rest ih =>
    match lv0 with
    | (p, q) =>
      have hrest : consistentSide rest Side.Buy :=
        fun lv2 h2 => h lv2 (List.mem_cons_of_mem _ h2)
      have hq := h (p, q) (List.mem_cons_self _ _)
      unfold insertBid
      split
      · intro lv2 h2
        rcases List.mem_cons.mp h2 with h3 | h3
        · subst h3
          exact ⟨by simp, by intro o2 ho2; rcases List.mem_singleton.mp ho2; exact ⟨rfl, ho⟩⟩
        · exact h lv2 h3
      · split
        · next heq =>
          intro lv2 h2
          rcases List.mem_cons.mp h2 with h3 | h3
          · subst h3
            refine ⟨by simp, ?_⟩
            intro o2 ho2
            rcases List.mem_append.mp ho2 with h4 | h4
            · exact hq.2 o2 h4
            · rcases List.mem_singleton.mp h4
              exact ⟨heq, ho⟩
          · exact hrest lv2 h3
        · intro lv2 h2
          rcases List.mem_cons.mp h2 with h3 | h3
          · subst h3
            exact hq
          · exact ih hrest lv2 h3

theorem insertAsk_consistent (o : Order) (s : SideMap)
    (h : consistentSide s Side.Sell) (ho : o.side = Side.Sell) :
    consistentSide (insertAsk o s) Side.Sell := by
  induction s with
  | nil =>
    intro lv hlv
    simp only [insertAsk] at hlv
    rcases List.mem_singleton.mp hlv
    exact ⟨by simp, by intro o2 ho2; rcases List.mem_singleton.mp ho2; exact ⟨rfl, ho⟩⟩
  | cons lv0 rest ih =>
    match lv0 with
    | (p, q) =>
      have hrest : consistentSide rest Side.Sell :=
        fun lv2 h2 => h lv2 (List.mem_cons_of_mem _ h2)
      have hq := h (p, q) (List.mem_cons_self _ _)
      unfold insertAsk
      split
      · intro lv2 h2
        rcases List.mem_cons.mp h2 with h3 | h3
        · subst h3
          exact ⟨by simp, by intro o2 ho2; rcases List.mem_singleton.mp ho2; exact ⟨rfl, ho⟩⟩
        · exact h lv2 h3
      · split
        · next heq =>
          intro lv2 h2
          rcases List.mem_cons.mp h2 with h3 | h3
          · subst h3
            refine ⟨by simp, ?_⟩
            intro o2 ho2
            rcases List.mem_append.mp ho2 with h4 | h4
            · exact hq.2 o2 h4
            · rcases List.mem_singleton.mp h4
              exact ⟨heq, ho⟩
          · exact hrest lv2 h3
        · intro lv2 h2
          rcases List.mem_cons.mp h2 with h3 | h3
          · subst h3
            exact hq
          · exact ih hrest lv2 h3

theorem insertBid_orders_mem (o : Order) (s : SideMap) (x : Order)
    (hx : x ∈ sideOrders (insertBid o s)) : x ∈ sideOrders s ∨ x = o := by
  induction s with
  | nil =>
    simp only [insertBid, sideOrders, List.flatMap_cons, List.flatMap_nil] at hx
    right
    simpa using hx
  | cons lv rest ih =>
    match lv with
    | (p, q) =>
      unfold insertBid at hx
      split at hx
      · simp only [sideOrders, List.flatMap_cons] at hx ⊢
        rcases List.mem_append.mp hx with h2 | h2
        · right; simpa using h2
        · left; exact h2
      · split at hx
        · simp only [sideOrders, List.flatMap_cons] at hx ⊢
          rcases List.mem_append.mp hx with h2 | h2
          · rcases List.mem_append.mp h2 with h3 | h3
            · left; exact List.mem_append.mpr (Or.inl h3)
            · right; simpa using h3
          · left; exact List.mem_append.mpr (Or.inr h2)
        · simp only [sideOrders, List.flatMap_cons] at hx ⊢
          rcases List.mem_append.mp hx with h2 | h2
          · left; exact List.mem_append.mpr (Or.inl h2)
          · rcases ih (by simpa [sideOrders] using h2) with h3 | h3
            · left; exact List.mem_append.mpr (Or.inr h3)
            · right; exact h3

theorem insertAsk_orders_mem (o : Order) (s : SideMap) (x : Order)
    (hx : x ∈ sideOrders (insertAsk o s)) : x ∈ sideOrders s ∨ x = o := by
  induction s with
  | nil =>
    simp only [insertAsk, sideOrders, List.flatMap_cons, List.flatMap_nil] at hx
    right
    simpa using hx
  | cons lv rest ih =>
    match lv with
    | (p, q) =>
      unfold insertAsk at hx
      split at hx
      · simp only [sideOrders, List.flatMap_cons] at hx ⊢
        rcases List.mem_append.mp hx with h2 | h2
        · right; simpa using h2
        · left; exact h2
      · split at hx
        · simp only [sideOrders, List.flatMap_cons] at hx ⊢
          rcases List.mem_append.mp hx with h2 | h2
          · rcases List.mem_append.mp h2 with h3 | h3
            · left; exact List.mem_append.mpr (Or.inl h3)
            · right; simpa using h3
          · left; exact List.mem_append.mpr (Or.inr h2)
        · simp only [sideOrders, List.flatMap_cons] at hx ⊢
          rcases List.mem_append.mp hx with h2 | h2
          · left; exact List.mem_append.mpr (Or.inl h2)
          · rcases ih (by simpa [sideOrders] using h2) with h3 | h3
            · left; exact List.mem_append.mpr (Or.inr h3)
            · right; exact h3

theorem insertBid_orders_length (o : Order) (s : SideMap) :
    (sideOrders (insertBid o s)).length = (sideOrders s).length + 1 := by
  induction s with
  | nil => simp [insertBid, sideOrders]
  | cons lv rest ih =>
    match lv with
    | (p, q) =>
      unfold insertBid
      split
      · simp only [sideOrders, List.flatMap_cons, List.length_append, List.length_cons,
          List.length_nil]
        omega
      · split
        · simp only [sideOrders, List.flatMap_cons, List.length_append, List.length_cons,
            List.length_nil]
          omega
        · simp only [sideOrders, List.flatMap_cons, List.length_append] at ih ⊢
          omega

theorem insertAsk_orders_length (o : Order) (s : SideMap) :
    (sideOrders (insertAsk o s)).length = (sideOrders s).length + 1 := by
  induction s with
  | nil => simp [insertAsk, sideOrders]
  | cons lv rest ih =>
    match lv with
    | (p, q) =>
      unfold insertAsk
      split
      · simp only [sideOrders, List.flatMap_cons, List.length_append, List.length_cons,
          List.length_nil]
        omega
      · split
        · simp only [sideOrders, List.flatMap_cons, List.length_append, List.length_cons,
            List.length_nil]
          omega
        · simp only [sideOrders, List.flatMap_cons, List.length_append] at ih ⊢
          omega

theorem insertBid_cons_gt (o : Order) (p : Int) (q : List Order) (rest : SideMap)
    (h : o.price > p) : insertBid o ((p, q) :: rest) = (o.price, [o]) :: (p, q) :: rest := by
  unfold insertBid
  rw [if_pos h]

theorem insertAsk_cons_lt (o : Order) (p : Int) (q : List Order) (rest : SideMap)
    (h : o.price < p) : insertAsk o ((p, q) :: rest) = (o.price, [o]) :: (p, q) :: rest := by
  unfold insertAsk
  rw [if_pos h]

theorem ordersFrom_nil (src : List Order) : ordersFrom src [] := by
  intro o ho
  simp at ho

theorem ordersFrom_refl (l : List Order) : ordersFrom l l := by
  intro o ho
  exact ⟨o, ho, rfl, rfl, rfl, rfl⟩

theorem ordersFrom_mono_src (src src2 out : List Order) (h : ordersFrom src out)
    (hsub : ∀ x ∈ src, x ∈ src2) : ordersFrom src2 out := by
  intro o ho
  obtain ⟨o₀, h1, h2⟩ := h o ho
  exact ⟨o₀, hsub o₀ h1, h2⟩

theorem ordersFrom_trans (a b c : List Order) (h1 : ordersFrom a b)
    (h2 : ordersFrom b c) : ordersFrom a c := by
  intro o ho
  obtain ⟨ob, hb, e1, e2, e3, e4⟩ := h2 o ho
  obtain ⟨oa, ha2, f1, f2, f3, f4⟩ := h1 ob hb
  exact ⟨oa, ha2, e1.trans f1, e2.trans f2, e3.trans f3, e4.trans f4⟩

theorem ordersFrom_fill_head (bid : Order) (q : Nat) (rest : List Order) :
    ordersFrom (bid :: rest) (bid.Fill q :: rest) := by
  intro o ho
  rcases List.mem_cons.mp ho with h2 | h2
  · subst h2
    exact ⟨bid, List.mem_cons_self _ _, rfl, rfl, rfl, rfl⟩
  · exact ⟨o, List.mem_cons_of_mem _ h2, rfl, rfl, rfl, rfl⟩

theorem ordersFrom_tail_src (x : Order) (src out : List Order)
    (h : ordersFrom src out) : ordersFrom (x :: src) out :=
  ordersFrom_mono_src src (x :: src) out h (fun y hy => List.mem_cons_of_mem _ hy)

theorem noFAKOrders_of_from (src out : List Order) (h : ordersFrom src out)
    (hn : noFAKOrders src) : noFAKOrders out := by
  intro o ho
  obtain ⟨o₀, h1, _, h2, _, _⟩ := h o ho
  rw [h2]
  exact hn o₀ h1

theorem noFAKOrders_tail (l : List Order) (h : noFAKOrders l) : noFAKOrders l.tail := by
  intro o ho
  exact h o (List.mem_of_mem_tail ho)

theorem matchLevel_bids_from (bids asks : List Order) (d : DataMap) :
    ordersFrom bids (matchLevel bids asks d).bidQueue := by
  induction bids, asks, d using matchLevel.induct with
  | case1 d asksLeft =>
    simp only [matchLevel]
    exact ordersFrom_nil _
  | case2 d bid bidsRest =>
    simp only [matchLevel]
    exact ordersFrom_refl _
  | case3 d bid bidsRest ask asksRest q b' a' d2 hb ha ih =>
    simp only [q, b', a', d2] at ih
    unfold matchLevel
    rw [dif_pos hb, dif_pos ha]
    dsimp only
    exact ordersFrom_tail_src _ _ _ ih
  | case4 d bid bidsRest ask asksRest q b' a' d2 hb ha ih =>
    simp only [q, b', a', d2] at ih
    unfold matchLevel
    rw [dif_pos hb, dif_neg ha]
    dsimp only
    exact ordersFrom_tail_src _ _ _ ih
  | case5 d bid bidsRest ask asksRest q b' a' d2 hb ha ih =>
    simp only [q, b', a', d2] at ih
    unfold matchLevel
    rw [dif_neg hb, dif_pos ha]
    dsimp only
    exact ordersFrom_trans _ _ _ (ordersFrom_fill_head bid _ bidsRest) ih
  | case6 d bid bidsRest ask asksRest q b' a' d2 hb ha ih =>
    simp only [q, b', a', d2] at ih
    unfold matchLevel
    rw [dif_neg hb, dif_neg ha]
    dsimp only
    exact ordersFrom_trans _ _ _ (ordersFrom_fill_head bid _ bidsRest) ih

theorem matchLevel_asks_from (bids asks : List Order) (d : DataMap) :
    ordersFrom asks (matchLevel bids asks d).askQueue := by
  induction bids, asks, d using matchLevel.induct with
  | case1 d asksLeft =>
    simp only [matchLevel]
    exact ordersFrom_refl _
  | case2 d bid bidsRest =>
    simp only [matchLevel]
    exact ordersFrom_nil _
  | case3 d bid bidsRest ask asksRest q b' a' d2 hb ha ih =>
    simp only [q, b', a', d2] at ih
    unfold matchLevel
    rw [dif_pos hb, dif_pos ha]
    dsimp only
    exact ordersFrom_tail_src _ _ _ ih
  | case4 d bid bidsRest ask asksRest q b' a' d2 hb ha ih =>
    simp only [q, b', a', d2] at ih
    unfold matchLevel
    rw [dif_pos hb, dif_neg ha]
    dsimp only
    exact ordersFrom_trans _ _ _ (ordersFrom_fill_head ask _ asksRest) ih
  | case5 d bid bidsRest ask asksRest q b' a' d2 hb ha ih =>
    simp only [q, b', a', d2] at ih
    unfold matchLevel
    rw [dif_neg hb, dif_pos ha]
    dsimp only
    exact ordersFrom_tail_src _ _ _ ih
  | case6 d bid bidsRest ask asksRest q b' a' d2 hb ha ih =>
    simp only [q, b', a', d2] at ih
    unfold matchLevel
    rw [dif_neg hb, dif_neg ha]
    dsimp only
    exact ordersFrom_trans _ _ _ (ordersFrom_fill_head ask _ asksRest) ih

theorem matchLevel_bid_tail_clean (bids asks : List Order) (d : DataMap)
    (h : noFAKOrders bids.tail) :
    noFAKOrders ((matchLevel bids asks d).bidQueue).tail := by
  induction bids, asks, d using matchLevel.induct with
  | case1 d asksLeft =>
    simp only [matchLevel]
    intro o ho
    simp at ho
  | case2 d bid bidsRest =>
    simpa only [matchLevel] using h
  | case3 d bid bidsRest ask asksRest q b' a' d2 hb ha ih =>
    unfold matchLevel
    rw [dif_pos hb, dif_pos ha]
    dsimp only
    apply noFAKOrders_tail
    apply noFAKOrders_of_from _ _ (matchLevel_bids_from bidsRest asksRest _)
    simpa using h
  | case4 d bid bidsRest ask asksRest q b' a' d2 hb ha ih =>
    unfold matchLevel
    rw [dif_pos hb, dif_neg ha]
    dsimp only
    apply noFAKOrders_tail
    apply noFAKOrders_of_from _ _ (matchLevel_bids_from bidsRest _ _)
    simpa using h
  | case5 d bid bidsRest ask asksRest q b' a' d2 hb ha ih =>
    simp only [q, b', a', d2] at ih
    unfold matchLevel
    rw [dif_neg hb, dif_pos ha]
    dsimp only
    apply ih
    simpa using h
  | case6 d bid bidsRest ask asksRest q b' a' d2 hb ha ih =>
    simp only [q, b', a', d2] at ih
    unfold matchLevel
    rw [dif_neg hb, dif_neg ha]
    dsimp only
    apply ih
    simpa using h

theorem matchLevel_ask_tail_clean (bids asks : List Order) (d : DataMap)
    (h : noFAKOrders asks.tail) :
    noFAKOrders ((matchLevel bids asks d).askQueue).tail := by
  induction bids, asks, d using matchLevel.induct with
  | case1 d asksLeft =>
    simpa only [matchLevel] using h
  | case2 d bid bidsRest =>
    simp only [matchLevel]
    intro o ho
    simp at ho
  | case3 d bid bidsRest ask asksRest q b' a' d2 hb ha ih =>
    unfold matchLevel
    rw [dif_pos hb, dif_pos ha]
    dsimp only
    apply noFAKOrders_tail
    apply noFAKOrders_of_from _ _ (matchLevel_asks_from bidsRest asksRest _)
    simpa using h
  | case4 d bid bidsRest ask asksRest q b' a' d2 hb ha ih =>
    simp only [q, b', a', d2] at ih
    unfold matchLevel
    rw [dif_pos hb, dif_neg ha]
    dsimp only
    apply ih
    simpa using h
  | case5 d bid bidsRest ask asksRest q b' a' d2 hb ha ih =>
    unfold matchLevel
    rw [dif_neg hb, dif_pos ha]
    dsimp only
    apply noFAKOrders_tail
    apply noFAKOrders_of_from _ _ (matchLevel_asks_from _ asksRest _)
    simpa using h
  | case6 d bid bidsRest ask asksRest q b' a' d2 hb ha ih =>
    simp only [q, b', a', d2] at ih
    unfold matchLevel
    rw [dif_neg hb, dif_neg ha]
    dsimp only
    apply ih
    simpa using h

theorem ordersFrom_append (a b c e : List Order) (h1 : ordersFrom a b)
    (h2 : ordersFrom c e) : ordersFrom (a ++ c) (b ++ e) := by
  intro o ho
  rcases List.mem_append.mp ho with h3 | h3
  · obtain ⟨o₀, hm, hp⟩ := h1 o h3
    exact ⟨o₀, List.mem_append.mpr (Or.inl hm), hp⟩
  · obtain ⟨o₀, hm, hp⟩ := h2 o h3
    exact ⟨o₀, List.mem_append.mpr (Or.inr hm), hp⟩

theorem sideOrders_cons (p : Int) (q : List Order) (rest : SideMap) :
    sideOrders ((p, q) :: rest) = q ++ sideOrders rest := by
  simp [sideOrders]

theorem consistent_level_from (p : Int) (bidQ out : List Order) (dir : Side)
    (hq : ∀ o ∈ bidQ, o.price = p ∧ o.side = dir)
    (hfrom : ordersFrom bidQ out) :
    ∀ o ∈ out, o.price = p ∧ o.side = dir := by
  intro o ho
  obtain ⟨o₀, hm, _, _, hside, hprice⟩ := hfrom o ho
  have := hq o₀ hm
  exact ⟨hprice.trans this.1, hside.trans this.2⟩

theorem matchLoop_wf : ∀ (bids asks : SideMap) (d : DataMap),
    (bids.map Prod.fst).Pairwise (fun x y => x > y) →
    (asks.map Prod.fst).Pairwise (fun x y => x < y) →
    consistentSide bids Side.Buy →
    consistentSide asks Side.Sell →
    ((matchLoop bids asks d).bids.map Prod.fst).Sublist (bids.map Prod.fst)
    ∧ ((matchLoop bids asks d).asks.map Prod.fst).Sublist (asks.map Prod.fst)
    ∧ consistentSide (matchLoop bids asks d).bids Side.Buy
    ∧ consistentSide (matchLoop bids asks d).asks Side.Sell
    ∧ ordersFrom (sideOrders bids) (sideOrders (matchLoop bids asks d).bids)
    ∧ ordersFrom (sideOrders asks) (sideOrders (matchLoop bids asks d).asks)
    ∧ (match (matchLoop bids asks d).bids, (matchLoop bids asks d).asks with
       | (bp, _) :: _, (ap, _) :: _ => bp < ap
       | _, _ => True) := by
  intro bids asks d
  induction bids, asks, d using matchLoop.induct with
  | case1 asks d =>
    intro hsb hsa hcb hca
    refine ⟨by simp [matchLoop], by simp [matchLoop], ?_, ?_, ?_, ?_, ?_⟩
    · intro lv hlv
      simp [matchLoop] at hlv
    · simpa [matchLoop] using hca
    · simp only [matchLoop, sideOrders, List.flatMap_nil]
      exact ordersFrom_nil _
    · simp only [matchLoop]
      exact ordersFrom_refl _
    · simp [matchLoop]
  | case2 bidLevel restBids d =>
    intro hsb hsa hcb hca
    refine ⟨by simp [matchLoop], by simp [matchLoop], ?_, ?_, ?_, ?_, ?_⟩
    · simpa [matchLoop] using hcb
    · intro lv hlv
      simp [matchLoop] at hlv
    · simp only [matchLoop]
      exact ordersFrom_refl _
    · simp only [matchLoop, sideOrders, List.flatMap_nil]
      exact ordersFrom_nil _
    · simp [matchLoop]
  | case3 bidPrice bidQ restBids askPrice askQ restAsks d hlt =>
    intro hsb hsa hcb hca
    unfold matchLoop
    rw [if_pos hlt]
    dsimp only
    exact ⟨List.Sublist.refl _, List.Sublist.refl _, hcb, hca, ordersFrom_refl _,
      ordersFrom_refl _, hlt⟩
  | case4 bidPrice bidQ restBids askPrice askQ restAsks d hlt r hb ha ih =>
    intro hsb hsa hcb hca
    simp only [r] at hb ha ih
    have hsb2 : (restBids.map Prod.fst).Pairwise (fun x y => x > y) := by
      rw [List.map_cons] at hsb
      exact (List.pairwise_cons.mp hsb).2
    have hsa2 : (restAsks.map Prod.fst).Pairwise (fun x y => x < y) := by
      rw [List.map_cons] at hsa
      exact (List.pairwise_cons.mp hsa).2
    have hcb2 : consistentSide restBids Side.Buy :=
      fun lv h2 => hcb lv (List.mem_cons_of_mem _ h2)
    have hca2 : consistentSide restAsks Side.Sell :=
      fun lv h2 => hca lv (List.mem_cons_of_mem _ h2)
    obtain ⟨i1, i2, i3, i4, i5, i6, i7⟩ := ih hsb2 hsa2 hcb2 hca2
    unfold matchLoop
    rw [if_neg hlt, dif_pos hb, dif_pos ha]
    dsimp only
    refine ⟨?_, ?_, i3, i4, ?_, ?_, i7⟩
    · simp only [List.map_cons]
      exact i1.trans (List.sublist_cons_self _ _)
    · simp only [List.map_cons]
      exact i2.trans (List.sublist_cons_self _ _)
    · rw [sideOrders_cons]
      exact ordersFrom_mono_src _ _ _ i5 (fun x hx => List.mem_append.mpr (Or.inr hx))
    · rw [sideOrders_cons]
      exact ordersFrom_mono_src _ _ _ i6 (fun x hx => List.mem_append.mpr (Or.inr hx))
  | case5 bidPrice bidQ restBids askPrice askQ restAsks d hlt r hb ha ih =>
    intro hsb hsa hcb hca
    simp only [r] at hb ha ih
    have hsb2 : (restBids.map Prod.fst).Pairwise (fun x y => x > y) := by
      rw [List.map_cons] at hsb
      exact (List.pairwise_cons.mp hsb).2
    have hcb2 : consistentSide restBids Side.Buy :=
      fun lv h2 => hcb lv (List.mem_cons_of_mem _ h2)
    have hca2 : consistentSide ((askPrice, (matchLevel bidQ askQ d).askQueue) :: restAsks)
        Side.Sell := by
      intro lv h2
      rcases List.mem_cons.mp h2 with h3 | h3
      · subst h3
        refine ⟨by simpa using ha, ?_⟩
        exact consistent_level_from askPrice askQ _ Side.Sell
          (fun o ho => (hca (askPrice, askQ) (List.mem_cons_self _ _)).2 o ho)
          (matchLevel_asks_from bidQ askQ d)
      · exact hca lv (List.mem_cons_of_mem _ h3)
    have hsa2 : ((((askPrice, (matchLevel bidQ askQ d).askQueue) :: restAsks)).map
        Prod.fst).Pairwise (fun x y => x < y) := by
      simpa using hsa
    obtain ⟨i1, i2, i3, i4, i5, i6, i7⟩ := ih hsb2 hsa2 hcb2 hca2
    unfold matchLoop
    rw [if_neg hlt, dif_pos hb, dif_neg ha]
    dsimp only
    refine ⟨?_, ?_, i3, i4, ?_, ?_, i7⟩
    · simp only [List.map_cons]
      exact i1.trans (List.sublist_cons_self _ _)
    · simpa only [List.map_cons] using i2
    · rw [sideOrders_cons]
      exact ordersFrom_mono_src _ _ _ i5 (fun x hx => List.mem_append.mpr (Or.inr hx))
    · rw [sideOrders_cons]
      refine ordersFrom_trans _ _ _ ?_ i6
      rw [sideOrders_cons]
      exact ordersFrom_append _ _ _ _ (matchLevel_asks_from bidQ askQ d)
        (ordersFrom_refl _)
  | case6 bidPrice bidQ restBids askPrice askQ restAsks d hlt r hb ha ih =>
    intro hsb hsa hcb hca
    simp only [r] at hb ha ih
    have hsa2 : (restAsks.map Prod.fst).Pairwise (fun x y => x < y) := by
      rw [List.map_cons] at hsa
      exact (List.pairwise_cons.mp hsa).2
    have hca2 : consistentSide restAsks Side.Sell :=
      fun lv h2 => hca lv (List.mem_cons_of_mem _ h2)
    have hcb2 : consistentSide ((bidPrice, (matchLevel bidQ askQ d).bidQueue) :: restBids)
        Side.Buy := by
      intro lv h2
      rcases List.mem_cons.mp h2 with h3 | h3
      · subst h3
        refine ⟨by simpa using hb, ?_⟩
        exact consistent_level_from bidPrice bidQ _ Side.Buy
          (fun o ho => (hcb (bidPrice, bidQ) (List.mem_cons_self _ _)).2 o ho)
          (matchLevel_bids_from bidQ askQ d)
      · exact hcb lv (List.mem_cons_of_mem _ h3)
    have hsb2 : ((((bidPrice, (matchLevel bidQ askQ d).bidQueue) :: restBids)).map
        Prod.fst).Pairwise (fun x y => x > y) := by
      simpa using hsb
    obtain ⟨i1, i2, i3, i4, i5, i6, i7⟩ := ih hsb2 hsa2 hcb2 hca2
    unfold matchLoop
    rw [if_neg hlt, dif_neg hb, dif_pos ha]
    dsimp only
    refine ⟨?_, ?_, i3, i4, ?_, ?_, i7⟩
    · simpa only [List.map_cons] using i1
    · simp only [List.map_cons]
      exact i2.trans (List.sublist_cons_self _ _)
    · rw [sideOrders_cons]
      refine ordersFrom_trans _ _ _ ?_ i5
      rw [sideOrders_cons]
      exact ordersFrom_append _ _ _ _ (matchLevel_bids_from bidQ askQ d)
        (ordersFrom_refl _)
    · rw [sideOrders_cons]
      exact ordersFrom_mono_src _ _ _ i6 (fun x hx => List.mem_append.mpr (Or.inr hx))
  | case7 bidPrice bidQ restBids askPrice askQ restAsks d hlt r hb ha ih =>
    intro hsb hsa hcb hca
    simp only [r] at hb ha ih
    have hcb2 : consistentSide ((bidPrice, (matchLevel bidQ askQ d).bidQueue) :: restBids)
        Side.Buy := by
      intro lv h2
      rcases List.mem_cons.mp h2 with h3 | h3
      · subst h3
        refine ⟨by simpa using hb, ?_⟩
        exact consistent_level_from bidPrice bidQ _ Side.Buy
          (fun o ho => (hcb (bidPrice, bidQ) (List.mem_cons_self _ _)).2 o ho)
          (matchLevel_bids_from bidQ askQ d)
      · exact hcb lv (List.mem_cons_of_mem _ h3)
    have hca2 : consistentSide ((askPrice, (matchLevel bidQ askQ d).askQueue) :: restAsks)
        Side.Sell := by
      intro lv h2
      rcases List.mem_cons.mp h2 with h3 | h3
      · subst h3
        refine ⟨by simpa using ha, ?_⟩
        exact consistent_level_from askPrice askQ _ Side.Sell
          (fun o ho => (hca (askPrice, askQ) (List.mem_cons_self _ _)).2 o ho)
          (matchLevel_asks_from bidQ askQ d)
      · exact hca lv (List.mem_cons_of_mem _ h3)
    have hsb2 : ((((bidPrice, (matchLevel bidQ askQ d).bidQueue) :: restBids)).map
        Prod.fst).Pairwise (fun x y => x > y) := by
      simpa using hsb
    have hsa2 : ((((askPrice, (matchLevel bidQ askQ d).askQueue) :: restAsks)).map
        Prod.fst).Pairwise (fun x y => x < y) := by
      simpa using hsa
    obtain ⟨i1, i2, i3, i4, i5, i6, i7⟩ := ih hsb2 hsa2 hcb2 hca2
    unfold matchLoop
    rw [if_neg hlt, dif_neg hb, dif_neg ha]
    dsimp only
    refine ⟨?_, ?_, i3, i4, ?_, ?_, i7⟩
    · simpa only [List.map_cons] using i1
    · simpa only [List.map_cons] using i2
    · rw [sideOrders_cons]
      refine ordersFrom_trans _ _ _ ?_ i5
      rw [sideOrders_cons]
      exact ordersFrom_append _ _ _ _ (matchLevel_bids_from bidQ askQ d)
        (ordersFrom_refl _)
    · rw [sideOrders_cons]
      refine ordersFrom_trans _ _ _ ?_ i6
      rw [sideOrders_cons]
      exact ordersFrom_append _ _ _ _ (matchLevel_asks_from bidQ askQ d)
        (ordersFrom_refl _)

theorem book_orders_eq (b : Book) :
    b.orders = sideOrders b.bids ++ sideOrders b.asks := rfl

theorem noFAK_append (l1 l2 : List Order) (h1 : noFAKOrders l1) (h2 : noFAKOrders l2) :
    noFAKOrders (l1 ++ l2) := by
  intro o ho
  rcases List.mem_append.mp ho with h3 | h3
  · exact h1 o h3
  · exact h2 o h3

theorem clean_levels_of_sideOrders (s : SideMap) (h : noFAKOrders (sideOrders s)) :
    ∀ lv ∈ s, noFAKOrders lv.2 := by
  intro lv hlv o ho
  apply h
  simp only [sideOrders, List.mem_flatMap]
  exact ⟨lv, hlv, ho⟩

theorem sideOrders_clean_of_levels (s : SideMap) (h : ∀ lv ∈ s, noFAKOrders lv.2) :
    noFAKOrders (sideOrders s) := by
  intro o ho
  simp only [sideOrders, List.mem_flatMap] at ho
  obtain ⟨lv, hlv, ho2⟩ := ho
  exact h lv hlv o ho2

theorem fakOnlyTopBid_of_clean (s : SideMap) (h : ∀ lv ∈ s, noFAKOrders lv.2) :
    fakOnlyTopBid s := by
  match s with
  | [] => trivial
  | (p, q) :: rest =>
    refine ⟨noFAKOrders_tail q (h (p, q) (List.mem_cons_self _ _)), ?_⟩
    intro lv hlv
    exact h lv (List.mem_cons_of_mem _ hlv)

theorem fakOnlyTopAsk_of_clean (s : SideMap) (h : ∀ lv ∈ s, noFAKOrders lv.2) :
    fakOnlyTopAsk s := by
  match s with
  | [] => trivial
  | (p, q) :: rest =>
    refine ⟨noFAKOrders_tail q (h (p, q) (List.mem_cons_self _ _)), ?_⟩
    intro lv hlv
    exact h lv (List.mem_cons_of_mem _ hlv)

theorem matchLoop_fakTopBid : ∀ (bids asks : SideMap) (d : DataMap),
    fakOnlyTopBid bids → (∀ lv ∈ asks, noFAKOrders lv.2) →
    fakOnlyTopBid (matchLoop bids asks d).bids
    ∧ (∀ lv ∈ (matchLoop bids asks d).asks, noFAKOrders lv.2) := by
  intro bids asks d
  induction bids, asks, d using matchLoop.induct with
  | case1 asks d =>
    intro htop ha
    simp only [matchLoop]
    exact ⟨trivial, ha⟩
  | case2 bidLevel restBids d =>
    intro htop ha
    simp only [matchLoop]
    refine ⟨htop, ?_⟩
    intro lv hlv
    simp at hlv
  | case3 bidPrice bidQ restBids askPrice askQ restAsks d hlt =>
    intro htop ha
    unfold matchLoop
    rw [if_pos hlt]
    exact ⟨htop, ha⟩
  | case4 bidPrice bidQ restBids askPrice askQ restAsks d hlt r hb ha2 ih =>
    intro htop ha
    simp only [r] at hb ha2 ih
    have hrest : fakOnlyTopBid restBids := fakOnlyTopBid_of_clean _ htop.2
    have harest : ∀ lv ∈ restAsks, noFAKOrders lv.2 :=
      fun lv h2 => ha lv (List.mem_cons_of_mem _ h2)
    obtain ⟨j1, j2⟩ := ih hrest harest
    unfold matchLoop
    rw [if_neg hlt, dif_pos hb, dif_pos ha2]
    exact ⟨j1, j2⟩
  | case5 bidPrice bidQ restBids askPrice askQ restAsks d hlt r hb ha2 ih =>
    intro htop ha
    simp only [r] at hb ha2 ih
    have hrest : fakOnlyTopBid restBids := fakOnlyTopBid_of_clean _ htop.2
    have haq : noFAKOrders (matchLevel bidQ askQ d).askQueue :=
      noFAKOrders_of_from _ _ (matchLevel_asks_from bidQ askQ d)
        (ha (askPrice, askQ) (List.mem_cons_self _ _))
    have harest : ∀ lv ∈ (askPrice, (matchLevel bidQ askQ d).askQueue) :: restAsks,
        noFAKOrders lv.2 := by
      intro lv h2
      rcases List.mem_cons.mp h2 with h3 | h3
      · subst h3
        exact haq
      · exact ha lv (List.mem_cons_of_mem _ h3)
    obtain ⟨j1, j2⟩ := ih hrest harest
    unfold matchLoop
    rw [if_neg hlt, dif_pos hb, dif_neg ha2]
    exact ⟨j1, j2⟩
  | case6 bidPrice bidQ restBids askPrice askQ restAsks d hlt r hb ha2 ih =>
    intro htop ha
    simp only [r] at hb ha2 ih
    have htop2 : fakOnlyTopBid ((bidPrice, (matchLevel bidQ askQ d).bidQueue) :: restBids) :=
      ⟨matchLevel_bid_tail_clean bidQ askQ d htop.1, htop.2⟩
    have harest : ∀ lv ∈ restAsks, noFAKOrders lv.2 :=
      fun lv h2 => ha lv (List.mem_cons_of_mem _ h2)
    obtain ⟨j1, j2⟩ := ih htop2 harest
    unfold matchLoop
    rw [if_neg hlt, dif_neg hb, dif_pos ha2]
    exact ⟨j1, j2⟩
  | case7 bidPrice bidQ restBids askPrice askQ restAsks d hlt r hb ha2 ih =>
    intro htop ha
    simp only [r] at hb ha2 ih
    have htop2 : fakOnlyTopBid ((bidPrice, (matchLevel bidQ askQ d).bidQueue) :: restBids) :=
      ⟨matchLevel_bid_tail_clean bidQ askQ d htop.1, htop.2⟩
    have haq : noFAKOrders (matchLevel bidQ askQ d).askQueue :=
      noFAKOrders_of_from _ _ (matchLevel_asks_from bidQ askQ d)
        (ha (askPrice, askQ) (List.mem_cons_self _ _))
    have harest : ∀ lv ∈ (askPrice, (matchLevel bidQ askQ d).askQueue) :: restAsks,
        noFAKOrders lv.2 := by
      intro lv h2
      rcases List.mem_cons.mp h2 with h3 | h3
      · subst h3
        exact haq
      · exact ha lv (List.mem_cons_of_mem _ h3)
    obtain ⟨j1, j2⟩ := ih htop2 harest
    unfold matchLoop
    rw [if_neg hlt, dif_neg hb, dif_neg ha2]
    exact ⟨j1, j2⟩

theorem matchLoop_fakTopAsk : ∀ (bids asks : SideMap) (d : DataMap),
    fakOnlyTopAsk asks → (∀ lv ∈ bids, noFAKOrders lv.2) →
    fakOnlyTopAsk (matchLoop bids asks d).asks
    ∧ (∀ lv ∈ (matchLoop bids asks d).bids, noFAKOrders lv.2) := by
  intro bids asks d
  induction bids, asks, d using matchLoop.induct with
  | case1 asks d =>
    intro htop hb
    simp only [matchLoop]
    refine ⟨htop, ?_⟩
    intro lv hlv
    simp at hlv
  | case2 bidLevel restBids d =>
    intro htop hb
    simp only [matchLoop]
    exact ⟨trivial, hb⟩
  | case3 bidPrice bidQ restBids askPrice askQ restAsks d hlt =>
    intro htop hb
    unfold matchLoop
    rw [if_pos hlt]
    exact ⟨htop, hb⟩
  | case4 bidPrice bidQ restBids askPrice askQ restAsks d hlt r hb2 ha2 ih =>
    intro htop hb
    simp only [r] at hb2 ha2 ih
    have hrest : fakOnlyTopAsk restAsks := fakOnlyTopAsk_of_clean _ htop.2
    have hbrest : ∀ lv ∈ restBids, noFAKOrders lv.2 :=
      fun lv h2 => hb lv (List.mem_cons_of_mem _ h2)
    obtain ⟨j1, j2⟩ := ih hrest hbrest
    unfold matchLoop
    rw [if_neg hlt, dif_pos hb2, dif_pos ha2]
    exact ⟨j1, j2⟩
  | case5 bidPrice bidQ restBids askPrice askQ restAsks d hlt r hb2 ha2 ih =>
    intro htop hb
    simp only [r] at hb2 ha2 ih
    have htop2 : fakOnlyTopAsk ((askPrice, (matchLevel bidQ askQ d).askQueue) :: restAsks) :=
      ⟨matchLevel_ask_tail_clean bidQ askQ d htop.1, htop.2⟩
    have hbrest : ∀ lv ∈ restBids, noFAKOrders lv.2 :=
      fun lv h2 => hb lv (List.mem_cons_of_mem _ h2)
    obtain ⟨j1, j2⟩ := ih htop2 hbrest
    unfold matchLoop
    rw [if_neg hlt, dif_pos hb2, dif_neg ha2]
    exact ⟨j1, j2⟩
  | case6 bidPrice bidQ restBids askPrice askQ restAsks d hlt r hb2 ha2 ih =>
    intro htop hb
    simp only [r] at hb2 ha2 ih
    have hrest : fakOnlyTopAsk restAsks := fakOnlyTopAsk_of_clean _ htop.2
    have hbq : noFAKOrders (matchLevel bidQ askQ d).bidQueue :=
      noFAKOrders_of_from _ _ (matchLevel_bids_from bidQ askQ d)
        (hb (bidPrice, bidQ) (List.mem_cons_self _ _))
    have hbrest : ∀ lv ∈ (bidPrice, (matchLevel bidQ askQ d).bidQueue) :: restBids,
        noFAKOrders lv.2 := by
      intro lv h2
      rcases List.mem_cons.mp h2 with h3 | h3
      · subst h3
        exact hbq
      · exact hb lv (List.mem_cons_of_mem _ h3)
    obtain ⟨j1, j2⟩ := ih hrest hbrest
    unfold matchLoop
    rw [if_neg hlt, dif_neg hb2, dif_pos ha2]
    exact ⟨j1, j2⟩
  | case7 bidPrice bidQ restBids askPrice askQ restAsks d hlt r hb2 ha2 ih =>
    intro htop hb
    simp only [r] at hb2 ha2 ih
    have htop2 : fakOnlyTopAsk ((askPrice, (matchLevel bidQ askQ d).askQueue) :: restAsks) :=
      ⟨matchLevel_ask_tail_clean bidQ askQ d htop.1, htop.2⟩
    have hbq : noFAKOrders (matchLevel bidQ askQ d).bidQueue :=
      noFAKOrders_of_from _ _ (matchLevel_bids_from bidQ askQ d)
        (hb (bidPrice, bidQ) (List.mem_cons_self _ _))
    have hbrest : ∀ lv ∈ (bidPrice, (matchLevel bidQ askQ d).bidQueue) :: restBids,
        noFAKOrders lv.2 := by
      intro lv h2
      rcases List.mem_cons.mp h2 with h3 | h3
      · subst h3
        exact hbq
      · exact hb lv (List.mem_cons_of_mem _ h3)
    obtain ⟨j1, j2⟩ := ih htop2 hbrest
    unfold matchLoop
    rw [if_neg hlt, dif_neg hb2, dif_neg ha2]
    exact ⟨j1, j2⟩

theorem matchLevel_bid_ids (bids asks : List Order) (d : DataMap) :
    ∃ k, (matchLevel bids asks d).bidQueue.map Order.orderId
      = (bids.map Order.orderId).drop k := by
  induction bids, asks, d using matchLevel.induct with
  | case1 d asksLeft =>
    exact ⟨0, by simp [matchLevel]⟩
  | case2 d bid bidsRest =>
    exact ⟨0, by simp [matchLevel]⟩
  | case3 d bid bidsRest ask asksRest q b' a' d2 hb ha ih =>
    simp only [q, b', a', d2] at ih
    obtain ⟨k, hk⟩ := ih
    refine ⟨k + 1, ?_⟩
    unfold matchLevel
    rw [dif_pos hb, dif_pos ha]
    dsimp only
    rw [hk]
    simp [List.drop_succ_cons]
  | case4 d bid bidsRest ask asksRest q b' a' d2 hb ha ih =>
    simp only [q, b', a', d2] at ih
    obtain ⟨k, hk⟩ := ih
    refine ⟨k + 1, ?_⟩
    unfold matchLevel
    rw [dif_pos hb, dif_neg ha]
    dsimp only
    rw [hk]
    simp [List.drop_succ_cons]
  | case5 d bid bidsRest ask asksRest q b' a' d2 hb ha ih =>
    simp only [q, b', a', d2] at ih
    obtain ⟨k, hk⟩ := ih
    refine ⟨k, ?_⟩
    unfold matchLevel
    rw [dif_neg hb, dif_pos ha]
    dsimp only
    rw [hk]
    simp [Order.Fill]
  | case6 d bid bidsRest ask asksRest q b' a' d2 hb ha ih =>
    simp only [q, b', a', d2] at ih
    obtain ⟨k, hk⟩ := ih
    refine ⟨k, ?_⟩
    unfold matchLevel
    rw [dif_neg hb, dif_neg ha]
    dsimp only
    rw [hk]
    simp [Order.Fill]

theorem matchLevel_ask_ids (bids asks : List Order) (d : DataMap) :
    ∃ k, (matchLevel bids asks d).askQueue.map Order.orderId
      = (asks.map Order.orderId).drop k := by
  induction bids, asks, d using matchLevel.induct with
  | case1 d asksLeft =>
    exact ⟨0, by simp [matchLevel]⟩
  | case2 d bid bidsRest =>
    exact ⟨0, by simp [matchLevel]⟩
  | case3 d bid bidsRest ask asksRest q b' a' d2 hb ha ih =>
    simp only [q, b', a', d2] at ih
    obtain ⟨k, hk⟩ := ih
    refine ⟨k + 1, ?_⟩
    unfold matchLevel
    rw [dif_pos hb, dif_pos ha]
    dsimp only
    rw [hk]
    simp [List.drop_succ_cons]
  | case4 d bid bidsRest ask asksRest q b' a' d2 hb ha ih =>
    simp only [q, b', a', d2] at ih
    obtain ⟨k, hk⟩ := ih
    refine ⟨k, ?_⟩
    unfold matchLevel
    rw [dif_pos hb, dif_neg ha]
    dsimp only
    rw [hk]
    simp [Order.Fill]
  | case5 d bid bidsRest ask asksRest q b' a' d2 hb ha ih =>
    simp only [q, b', a', d2] at ih
    obtain ⟨k, hk⟩ := ih
    refine ⟨k + 1, ?_⟩
    unfold matchLevel
    rw [dif_neg hb, dif_pos ha]
    dsimp only
    rw [hk]
    simp [List.drop_succ_cons]
  | case6 d bid bidsRest ask asksRest q b' a' d2 hb ha ih =>
    simp only [q, b', a', d2] at ih
    obtain ⟨k, hk⟩ := ih
    refine ⟨k, ?_⟩
    unfold matchLevel
    rw [dif_neg hb, dif_neg ha]
    dsimp only
    rw [hk]
    simp [Order.Fill]

theorem matchLoop_ids : ∀ (bids asks : SideMap) (d : DataMap),
    ((sideOrders (matchLoop bids asks d).bids).map Order.orderId).Sublist
      ((sideOrders bids).map Order.orderId)
    ∧ ((sideOrders (matchLoop bids asks d).asks).map Order.orderId).Sublist
      ((sideOrders asks).map Order.orderId) := by
  intro bids asks d
  induction bids, asks, d using matchLoop.induct with
  | case1 asks d =>
    constructor
    · simp [matchLoop, sideOrders]
    · simp [matchLoop]
  | case2 bidLevel restBids d =>
    constructor
    · simp [matchLoop]
    · simp [matchLoop, sideOrders]
  | case3 bidPrice bidQ restBids askPrice askQ restAsks d hlt =>
    unfold matchLoop
    rw [if_pos hlt]
    exact ⟨List.Sublist.refl _, List.Sublist.refl _⟩
  | case4 bidPrice bidQ restBids askPrice askQ restAsks d hlt r hb ha ih =>
    simp only [r] at hb ha ih
    obtain ⟨j1, j2⟩ := ih
    unfold matchLoop
    rw [if_neg hlt, dif_pos hb, dif_pos ha]
    dsimp only
    constructor
    · refine j1.trans ?_
      rw [sideOrders_cons, List.map_append]
      exact List.sublist_append_right _ _
    · refine j2.trans ?_
      rw [sideOrders_cons, List.map_append]
      exact List.sublist_append_right _ _
  | case5 bidPrice bidQ restBids askPrice askQ restAsks d hlt r hb ha ih =>
    simp only [r] at hb ha ih
    obtain ⟨j1, j2⟩ := ih
    unfold matchLoop
    rw [if_neg hlt, dif_pos hb, dif_neg ha]
    dsimp only
    constructor
    · refine j1.trans ?_
      rw [sideOrders_cons, List.map_append]
      exact List.sublist_append_right _ _
    · refine j2.trans ?_
      rw [sideOrders_cons, sideOrders_cons, List.map_append, List.map_append]
      apply List.Sublist.append ?_ (List.Sublist.refl _)
      obtain ⟨k, hk⟩ := matchLevel_ask_ids bidQ askQ d
      rw [hk]
      exact List.drop_sublist _ _
  | case6 bidPrice bidQ restBids askPrice askQ restAsks d hlt r hb ha ih =>
    simp only [r] at hb ha ih
    obtain ⟨j1, j2⟩ := ih
    unfold matchLoop
    rw [if_neg hlt, dif_neg hb, dif_pos ha]
    dsimp only
    constructor
    · refine j1.trans ?_
      rw [sideOrders_cons, sideOrders_cons, List.map_append, List.map_append]
      apply List.Sublist.append ?_ (List.Sublist.refl _)
      obtain ⟨k, hk⟩ := matchLevel_bid_ids bidQ askQ d
      rw [hk]
      exact List.drop_sublist _ _
    · refine j2.trans ?_
      rw [sideOrders_cons, List.map_append]
      exact List.sublist_append_right _ _
  | case7 bidPrice bidQ restBids askPrice askQ restAsks d hlt r hb ha ih =>
    simp only [r] at hb ha ih
    obtain ⟨j1, j2⟩ := ih
    unfold matchLoop
    rw [if_neg hlt, dif_neg hb, dif_neg ha]
    dsimp only
    constructor
    · refine j1.trans ?_
      rw [sideOrders_cons, sideOrders_cons, List.map_append, List.map_append]
      apply List.Sublist.append ?_ (List.Sublist.refl _)
      obtain ⟨k, hk⟩ := matchLevel_bid_ids bidQ askQ d
      rw [hk]
      exact List.drop_sublist _ _
    · refine j2.trans ?_
      rw [sideOrders_cons, sideOrders_cons, List.map_append, List.map_append]
      apply List.Sublist.append ?_ (List.Sublist.refl _)
      obtain ⟨k, hk⟩ := matchLevel_ask_ids bidQ askQ d
      rw [hk]
      exact List.drop_sublist _ _

theorem insertBid_orders_perm (o : Order) (s : SideMap) :
    (sideOrders (insertBid o s)).Perm (o :: sideOrders s) := by
  induction s with
  | nil => simp [insertBid, sideOrders]
  | cons lv rest ih =>
    match lv with
    | (p, q) =>
      unfold insertBid
      split
      · rw [sideOrders_cons]
        simp
      · split
        · rw [sideOrders_cons, sideOrders_cons]
          have he : (q ++ [o]) ++ sideOrders rest = q ++ o :: sideOrders rest := by simp
          rw [he]
          exact List.perm_middle
        · rw [sideOrders_cons, sideOrders_cons]
          exact (List.Perm.append_left q ih).trans List.perm_middle

theorem insertAsk_orders_perm (o : Order) (s : SideMap) :
    (sideOrders (insertAsk o s)).Perm (o :: sideOrders s) := by
  induction s with
  | nil => simp [insertAsk, sideOrders]
  | cons lv rest ih =>
    match lv with
    | (p, q) =>
      unfold insertAsk
      split
      · rw [sideOrders_cons]
        simp
      · split
        · rw [sideOrders_cons, sideOrders_cons]
          have he : (q ++ [o]) ++ sideOrders rest = q ++ o :: sideOrders rest := by simp
          rw [he]
          exact List.perm_middle
        · rw [sideOrders_cons, sideOrders_cons]
          exact (List.Perm.append_left q ih).trans List.perm_middle

theorem findOrder_head_bid (b : Book) (p : Int) (o : Order) (q : List Order)
    (rest : SideMap) (hb : b.bids = (p, o :: q) :: rest) :
    b.findOrder o.orderId = some o := by
  unfold Book.findOrder Book.orders
  rw [hb]
  simp only [List.flatMap_cons, List.append_assoc, List.cons_append]
  rw [List.find?_cons_of_pos]
  simp

theorem findOrder_head_ask (b : Book) (p : Int) (o : Order) (q : List Order)
    (rest : SideMap) (ha : b.asks = (p, o :: q) :: rest)
    (hnd : (b.orders.map Order.orderId).Nodup) :
    b.findOrder o.orderId = some o := by
  unfold Book.findOrder Book.orders
  have hmem : o.orderId ∈ (sideOrders b.asks).map Order.orderId := by
    rw [ha, sideOrders_cons]
    simp
  have hdisj := List.disjoint_of_nodup_append (by
    simpa only [book_orders_eq, List.map_append] using hnd)
  rw [List.find?_append]
  have hnone : (b.bids.flatMap Prod.snd).find? (fun x => x.orderId == o.orderId) = none := by
    rw [List.find?_eq_none]
    intro x hx hbeq
    apply hdisj (a := o.orderId) ?_ hmem
    have : x.orderId = o.orderId := by simpa using hbeq
    rw [← this]
    exact List.mem_map_of_mem _ hx
  rw [hnone]
  simp only [Option.none_or]
  rw [ha]
  simp only [List.flatMap_cons, List.cons_append]
  rw [List.find?_cons_of_pos]
  simp

theorem cancelOrder_head_bid (b : Book) (p : Int) (o : Order) (q : List Order)
    (rest : SideMap) (hb : b.bids = (p, o :: q) :: rest)
    (ho : o.side = Side.Buy) (hp : o.price = p) :
    (cancelOrder b o.orderId).bids = (if q.isEmpty then rest else (p, q) :: rest)
    ∧ (cancelOrder b o.orderId).asks = b.asks := by
  unfold cancelOrder cancelOrderInternal
  rw [findOrder_head_bid b p o q rest hb]
  dsimp only
  rw [if_neg (by rw [ho]; exact fun hcon => Side.noConfusion hcon)]
  dsimp only
  rw [hb, hp]
  unfold removeFromSide
  rw [if_pos rfl]
  dsimp only
  unfold eraseFirstById
  rw [if_pos rfl]
  constructor
  · split <;> rfl
  · rfl

theorem cancelOrder_head_ask (b : Book) (p : Int) (o : Order) (q : List Order)
    (rest : SideMap) (ha : b.asks = (p, o :: q) :: rest)
    (hnd : (b.orders.map Order.orderId).Nodup)
    (ho : o.side = Side.Sell) (hp : o.price = p) :
    (cancelOrder b o.orderId).asks = (if q.isEmpty then rest else (p, q) :: rest)
    ∧ (cancelOrder b o.orderId).bids = b.bids := by
  unfold cancelOrder cancelOrderInternal
  rw [findOrder_head_ask b p o q rest ha hnd]
  dsimp only
  rw [if_pos ho]
  dsimp only
  rw [ha, hp]
  unfold removeFromSide
  rw [if_pos rfl]
  dsimp only
  unfold eraseFirstById
  rw [if_pos rfl]
  constructor
  · split <;> rfl
  · rfl

theorem cancelOrderInternal_wf5 (b : Book) (id : Nat)
    (hs : sortedSides b) (hcb : consistentSide b.bids Side.Buy)
    (hca : consistentSide b.asks Side.Sell) (ht : topsOrdered b)
    (hnd : (b.orders.map Order.orderId).Nodup) :
    sortedSides (cancelOrderInternal b id)
    ∧ consistentSide (cancelOrderInternal b id).bids Side.Buy
    ∧ consistentSide (cancelOrderInternal b id).asks Side.Sell
    ∧ topsOrdered (cancelOrderInternal b id)
    ∧ (((cancelOrderInternal b id).orders).map Order.orderId).Nodup := by
  refine ⟨⟨?_, ?_⟩, ?_, ?_, ?_, ?_⟩
  · exact List.Pairwise.sublist (cancelOrderInternal_bids_keys b id) hs.1
  · exact List.Pairwise.sublist (cancelOrderInternal_asks_keys b id) hs.2
  · unfold cancelOrderInternal
    split
    · exact hcb
    · split
      · exact hcb
      · exact removeFromSide_consistent _ _ _ _ hcb
  · unfold cancelOrderInternal
    split
    · exact hca
    · split
      · exact removeFromSide_consistent _ _ _ _ hca
      · exact hca
  · exact topsOrdered_shrink b _ hs ht (cancelOrderInternal_bids_keys b id)
      (cancelOrderInternal_asks_keys b id)
  · exact List.Nodup.sublist (List.Sublist.map _ (cancelOrderInternal_orders b id)) hnd

theorem fakCancelTopBid_cases (b : Book) :
    fakCancelTopBid b = b ∨ ∃ id, fakCancelTopBid b = cancelOrderInternal b id := by
  unfold fakCancelTopBid
  split
  · split
    · exact Or.inr ⟨_, rfl⟩
    · exact Or.inl rfl
  · exact Or.inl rfl

theorem fakCancelTopAsk_cases (b : Book) :
    fakCancelTopAsk b = b ∨ ∃ id, fakCancelTopAsk b = cancelOrderInternal b id := by
  unfold fakCancelTopAsk
  split
  · split
    · exact Or.inr ⟨_, rfl⟩
    · exact Or.inl rfl
  · exact Or.inl rfl

theorem matchOrders_wf (b : Book)
    (hsb : (b.bids.map Prod.fst).Pairwise (fun x y => x > y))
    (hsa : (b.asks.map Prod.fst).Pairwise (fun x y => x < y))
    (hcb : consistentSide b.bids Side.Buy)
    (hca : consistentSide b.asks Side.Sell)
    (hnd : (b.orders.map Order.orderId).Nodup) :
    sortedSides (matchOrders b).2
    ∧ consistentSide (matchOrders b).2.bids Side.Buy
    ∧ consistentSide (matchOrders b).2.asks Side.Sell
    ∧ topsOrdered (matchOrders b).2
    ∧ (((matchOrders b).2.orders).map Order.orderId).Nodup := by
  obtain ⟨i1, i2, i3, i4, i5, i6, i7⟩ := matchLoop_wf b.bids b.asks b.data hsb hsa hcb hca
  obtain ⟨k1, k2⟩ := matchLoop_ids b.bids b.asks b.data
  set b1 : Book := ⟨(matchLoop b.bids b.asks b.data).bids,
    (matchLoop b.bids b.asks b.data).asks, (matchLoop b.bids b.asks b.data).data⟩ with hb1
  have w1 : sortedSides b1 := ⟨List.Pairwise.sublist i1 hsb, List.Pairwise.sublist i2 hsa⟩
  have w2 : consistentSide b1.bids Side.Buy := i3
  have w3 : consistentSide b1.asks Side.Sell := i4
  have w4 : topsOrdered b1 := i7
  have w5 : ((b1.orders).map Order.orderId).Nodup := by
    rw [book_orders_eq, List.map_append]
    refine List.Nodup.sublist (List.Sublist.append k1 k2) ?_
    simpa only [book_orders_eq, List.map_append] using hnd
  have step : ∀ (c : Book), sortedSides c → consistentSide c.bids Side.Buy →
      consistentSide c.asks Side.Sell → topsOrdered c →
      ((c.orders).map Order.orderId).Nodup →
      (c = fakCancelTopBid c ∨ ∃ id, fakCancelTopBid c = cancelOrderInternal c id) →
      sortedSides (fakCancelTopBid c) ∧ consistentSide (fakCancelTopBid c).bids Side.Buy
      ∧ consistentSide (fakCancelTopBid c).asks Side.Sell ∧ topsOrdered (fakCancelTopBid c)
      ∧ (((fakCancelTopBid c).orders).map Order.orderId).Nodup := by
    intro c c1 c2 c3 c4 c5 hcase
    rcases hcase with he | ⟨id, he⟩
    · rw [← he]
      exact ⟨c1, c2, c3, c4, c5⟩
    · rw [he]
      exact cancelOrderInternal_wf5 c id c1 c2 c3 c4 c5
  have hstep1 := step b1 w1 w2 w3 w4 w5 (by
    rcases fakCancelTopBid_cases b1 with h | h
    · exact Or.inl h.symm
    · exact Or.inr h)
  obtain ⟨v1, v2, v3, v4, v5⟩ := hstep1
  have step2 : sortedSides (fakCancelTopAsk (fakCancelTopBid b1))
      ∧ consistentSide (fakCancelTopAsk (fakCancelTopBid b1)).bids Side.Buy
      ∧ consistentSide (fakCancelTopAsk (fakCancelTopBid b1)).asks Side.Sell
      ∧ topsOrdered (fakCancelTopAsk (fakCancelTopBid b1))
      ∧ (((fakCancelTopAsk (fakCancelTopBid b1)).orders).map Order.orderId).Nodup := by
    rcases fakCancelTopAsk_cases (fakCancelTopBid b1) with h | ⟨id, h⟩
    · rw [h]
      exact ⟨v1, v2, v3, v4, v5⟩
    · rw [h]
      exact cancelOrderInternal_wf5 _ id v1 v2 v3 v4 v5
  have hM : (matchOrders b).2 = fakCancelTopAsk (fakCancelTopBid b1) := rfl
  rw [hM]
  exact step2

theorem fakCancelTopBid_eq_of_clean (b : Book)
    (h : noFAKOrders (sideOrders b.bids)) : fakCancelTopBid b = b := by
  unfold fakCancelTopBid
  split
  · next p o tl rest heq =>
    rw [if_neg]
    apply h
    rw [heq, sideOrders_cons]
    exact List.mem_append.mpr (Or.inl (List.mem_cons_self _ _))
  · rfl

theorem fakCancelTopAsk_eq_of_clean (b : Book)
    (h : noFAKOrders (sideOrders b.asks)) : fakCancelTopAsk b = b := by
  unfold fakCancelTopAsk
  split
  · next p o tl rest heq =>
    rw [if_neg]
    apply h
    rw [heq, sideOrders_cons]
    exact List.mem_append.mpr (Or.inl (List.mem_cons_self _ _))
  · rfl

theorem fakCancelTopBid_clean (b : Book)
    (htop : fakOnlyTopBid b.bids)
    (hcb : consistentSide b.bids Side.Buy) :
    noFAKOrders (sideOrders (fakCancelTopBid b).bids)
    ∧ (fakCancelTopBid b).asks = b.asks := by
  unfold fakCancelTopBid
  split
  · next p o tl rest heq =>
    have hlv := hcb (p, o :: tl) (by rw [heq]; exact List.mem_cons_self _ _)
    have ho : o.side = Side.Buy := (hlv.2 o (List.mem_cons_self _ _)).2
    have hp : o.price = p := (hlv.2 o (List.mem_cons_self _ _)).1
    have htop2 : noFAKOrders tl ∧ ∀ lv ∈ rest, noFAKOrders lv.2 := by
      have h2 := htop
      rw [heq] at h2
      exact ⟨by simpa using h2.1, h2.2⟩
    split
    · next hfak =>
      obtain ⟨e1, e2⟩ := cancelOrder_head_bid b p o tl rest heq ho hp
      refine ⟨?_, e2⟩
      rw [e1]
      split
      · exact sideOrders_clean_of_levels _ htop2.2
      · apply sideOrders_clean_of_levels
        intro lv hlv2
        rcases List.mem_cons.mp hlv2 with h3 | h3
        · subst h3
          exact htop2.1
        · exact htop2.2 lv h3
    · next hnfak =>
      refine ⟨?_, rfl⟩
      rw [heq]
      apply sideOrders_clean_of_levels
      intro lv hlv2
      rcases List.mem_cons.mp hlv2 with h3 | h3
      · subst h3
        intro x hx
        rcases List.mem_cons.mp hx with h4 | h4
        · subst h4
          exact hnfak
        · exact htop2.1 x h4
      · exact htop2.2 lv h3
  · next hne =>
    refine ⟨?_, rfl⟩
    match hbb : b.bids with
    | [] =>
      intro x hx
      simp [sideOrders] at hx
    | (p, []) :: rest =>
      have h2 := htop
      rw [hbb] at h2
      rw [sideOrders_cons]
      intro x hx
      rcases List.mem_append.mp hx with h3 | h3
      · simp at h3
      · exact sideOrders_clean_of_levels _ h2.2 x h3
    | (p, o :: tl) :: rest =>
      exact absurd rfl (by rw [hbb] at hne; exact fun hcon => hne p o tl rest hcon)

theorem fakCancelTopAsk_clean (b : Book)
    (htop : fakOnlyTopAsk b.asks)
    (hca : consistentSide b.asks Side.Sell)
    (hnd : (b.orders.map Order.orderId).Nodup) :
    noFAKOrders (sideOrders (fakCancelTopAsk b).asks)
    ∧ (fakCancelTopAsk b).bids = b.bids := by
  unfold fakCancelTopAsk
  split
  · next p o tl rest heq =>
    have hlv := hca (p, o :: tl) (by rw [heq]; exact List.mem_cons_self _ _)
    have ho : o.side = Side.Sell := (hlv.2 o (List.mem_cons_self _ _)).2
    have hp : o.price = p := (hlv.2 o (List.mem_cons_self _ _)).1
    have htop2 : noFAKOrders tl ∧ ∀ lv ∈ rest, noFAKOrders lv.2 := by
      have h2 := htop
      rw [heq] at h2
      exact ⟨by simpa using h2.1, h2.2⟩
    split
    · next hfak =>
      obtain ⟨e1, e2⟩ := cancelOrder_head_ask b p o tl rest heq hnd ho hp
      refine ⟨?_, e2⟩
      rw [e1]
      split
      · exact sideOrders_clean_of_levels _ htop2.2
      · apply sideOrders_clean_of_levels
        intro lv hlv2
        rcases List.mem_cons.mp hlv2 with h3 | h3
        · subst h3
          exact htop2.1
        · exact htop2.2 lv h3
    · next hnfak =>
      refine ⟨?_, rfl⟩
      rw [heq]
      apply sideOrders_clean_of_levels
      intro lv hlv2
      rcases List.mem_cons.mp hlv2 with h3 | h3
      · subst h3
        intro x hx
        rcases List.mem_cons.mp hx with h4 | h4
        · subst h4
          exact hnfak
        · exact htop2.1 x h4
      · exact htop2.2 lv h3
  · next hne =>
    refine ⟨?_, rfl⟩
    match hbb : b.asks with
    | [] =>
      intro x hx
      simp [sideOrders] at hx
    | (p, []) :: rest =>
      have h2 := htop
      rw [hbb] at h2
      rw [sideOrders_cons]
      intro x hx
      rcases List.mem_append.mp hx with h3 | h3
      · simp at h3
      · exact sideOrders_clean_of_levels _ h2.2 x h3
    | (p, o :: tl) :: rest =>
      exact absurd rfl (by rw [hbb] at hne; exact fun hcon => hne p o tl rest hcon)

theorem matchOrders_noFAK_bidTop (b : Book)
    (hsb : (b.bids.map Prod.fst).Pairwise (fun x y => x > y))
    (hsa : (b.asks.map Prod.fst).Pairwise (fun x y => x < y))
    (hcb : consistentSide b.bids Side.Buy)
    (hca : consistentSide b.asks Side.Sell)
    (htop : fakOnlyTopBid b.bids)
    (haclean : noFAKOrders (sideOrders b.asks)) :
    noFAKOrders ((matchOrders b).2.orders) := by
  obtain ⟨i1, i2, i3, i4, i5, i6, i7⟩ := matchLoop_wf b.bids b.asks b.data hsb hsa hcb hca
  obtain ⟨f1, f2⟩ := matchLoop_fakTopBid b.bids b.asks b.data htop
    (clean_levels_of_sideOrders _ haclean)
  set b1 : Book := ⟨(matchLoop b.bids b.asks b.data).bids,
    (matchLoop b.bids b.asks b.data).asks, (matchLoop b.bids b.asks b.data).data⟩ with hb1
  have haclean1 : noFAKOrders (sideOrders b1.asks) := sideOrders_clean_of_levels _ f2
  obtain ⟨e1, e2⟩ := fakCancelTopBid_clean b1 f1 i3
  have h3 : fakCancelTopAsk (fakCancelTopBid b1) = fakCancelTopBid b1 := by
    apply fakCancelTopAsk_eq_of_clean
    rw [e2]
    exact haclean1
  have hM : (matchOrders b).2 = fakCancelTopAsk (fakCancelTopBid b1) := rfl
  rw [hM, h3, book_orders_eq]
  refine noFAK_append _ _ e1 ?_
  rw [e2]
  exact haclean1

theorem matchOrders_noFAK_askTop (b : Book)
    (hsb : (b.bids.map Prod.fst).Pairwise (fun x y => x > y))
    (hsa : (b.asks.map Prod.fst).Pairwise (fun x y => x < y))
    (hcb : consistentSide b.bids Side.Buy)
    (hca : consistentSide b.asks Side.Sell)
    (hnd : (b.orders.map Order.orderId).Nodup)
    (htop : fakOnlyTopAsk b.asks)
    (hbclean : noFAKOrders (sideOrders b.bids)) :
    noFAKOrders ((matchOrders b).2.orders) := by
  obtain ⟨i1, i2, i3, i4, i5, i6, i7⟩ := matchLoop_wf b.bids b.asks b.data hsb hsa hcb hca
  obtain ⟨f1, f2⟩ := matchLoop_fakTopAsk b.bids b.asks b.data htop
    (clean_levels_of_sideOrders _ hbclean)
  obtain ⟨k1, k2⟩ := matchLoop_ids b.bids b.asks b.data
  set b1 : Book := ⟨(matchLoop b.bids b.asks b.data).bids,
    (matchLoop b.bids b.asks b.data).asks, (matchLoop b.bids b.asks b.data).data⟩ with hb1
  have hbclean1 : noFAKOrders (sideOrders b1.bids) := sideOrders_clean_of_levels _ f2
  have hnd1 : ((b1.orders).map Order.orderId).Nodup := by
    rw [book_orders_eq, List.map_append]
    refine List.Nodup.sublist (List.Sublist.append k1 k2) ?_
    simpa only [book_orders_eq, List.map_append] using hnd
  have h2 : fakCancelTopBid b1 = b1 := fakCancelTopBid_eq_of_clean b1 hbclean1
  obtain ⟨e1, e2⟩ := fakCancelTopAsk_clean b1 f1 i4 hnd1
  have hM : (matchOrders b).2 = fakCancelTopAsk (fakCancelTopBid b1) := rfl
  rw [hM, h2, book_orders_eq]
  refine noFAK_append _ _ ?_ e1
  rw [e2]
  exact hbclean1

theorem containsId_false_not_mem (b : Book) (id : Nat)
    (h : b.containsId id = false) : id ∉ b.orders.map Order.orderId := by
  unfold Book.containsId at h
  intro hmem
  obtain ⟨o, ho, hid⟩ := List.mem_map.mp hmem
  have := List.any_eq_false.mp h o ho
  simp [hid] at this

theorem placeOrder_buy (b : Book) (o : Order) (h : o.side = Side.Buy) :
    (placeOrder b o).bids = insertBid o b.bids ∧ (placeOrder b o).asks = b.asks := by
  unfold placeOrder
  rw [if_pos h]
  exact ⟨rfl, rfl⟩

theorem placeOrder_sell (b : Book) (o : Order) (h : o.side = Side.Sell) :
    (placeOrder b o).bids = b.bids ∧ (placeOrder b o).asks = insertAsk o b.asks := by
  unfold placeOrder
  rw [if_neg (by rw [h]; exact fun hcon => Side.noConfusion hcon)]
  exact ⟨rfl, rfl⟩

theorem placeOrder_orders_perm (b : Book) (o : Order) :
    ((placeOrder b o).orders).Perm (o :: b.orders) := by
  rcases hside : o.side with _ | _
  · obtain ⟨e1, e2⟩ := placeOrder_buy b o hside
    rw [book_orders_eq, e1, e2, book_orders_eq]
    exact List.Perm.append_right _ (insertBid_orders_perm o b.bids)
  · obtain ⟨e1, e2⟩ := placeOrder_sell b o hside
    rw [book_orders_eq, e1, e2, book_orders_eq]
    exact List.Perm.trans (List.Perm.append_left _ (insertAsk_orders_perm o b.asks))
      List.perm_middle

theorem placeOrder_wf (b : Book) (o : Order)
    (hsb : (b.bids.map Prod.fst).Pairwise (fun x y => x > y))
    (hsa : (b.asks.map Prod.fst).Pairwise (fun x y => x < y))
    (hcb : consistentSide b.bids Side.Buy)
    (hca : consistentSide b.asks Side.Sell)
    (hnd : (b.orders.map Order.orderId).Nodup)
    (hdup : b.containsId o.orderId = false) :
    ((placeOrder b o).bids.map Prod.fst).Pairwise (fun x y => x > y)
    ∧ ((placeOrder b o).asks.map Prod.fst).Pairwise (fun x y => x < y)
    ∧ consistentSide (placeOrder b o).bids Side.Buy
    ∧ consistentSide (placeOrder b o).asks Side.Sell
    ∧ (((placeOrder b o).orders).map Order.orderId).Nodup := by
  have hperm := placeOrder_orders_perm b o
  have hnd2 : (((placeOrder b o).orders).map Order.orderId).Nodup := by
    refine ((hperm.map Order.orderId).nodup_iff).mpr ?_
    simp only [List.map_cons]
    exact List.nodup_cons.mpr ⟨containsId_false_not_mem b o.orderId hdup, hnd⟩
  rcases hside : o.side with _ | _
  · obtain ⟨e1, e2⟩ := placeOrder_buy b o hside
    rw [e1, e2]
    exact ⟨insertBid_keys_sorted o b.bids hsb, hsa,
      insertBid_consistent o b.bids hcb hside, hca, hnd2⟩
  · obtain ⟨e1, e2⟩ := placeOrder_sell b o hside
    rw [e1, e2]
    exact ⟨hsb, insertAsk_keys_sorted o b.asks hsa, hcb,
      insertAsk_consistent o b.asks hca hside, hnd2⟩

theorem noFAK_bids_part (b : Book) (h : noFAKOrders b.orders) :
    noFAKOrders (sideOrders b.bids) := by
  intro x hx
  apply h
  rw [book_orders_eq]
  exact List.mem_append.mpr (Or.inl hx)

theorem noFAK_asks_part (b : Book) (h : noFAKOrders b.orders) :
    noFAKOrders (sideOrders b.asks) := by
  intro x hx
  apply h
  rw [book_orders_eq]
  exact List.mem_append.mpr (Or.inr hx)

theorem addOrderWorker_wf (b : Book) (o : Order) (h : WFBook b)
    (hdup : b.containsId o.orderId = false) :
    WFBook (addOrderWorker b o).2 := by
  obtain ⟨hs, hcb, hca, ht, hf, hnd⟩ := h
  unfold addOrderWorker
  split
  · exact ⟨hs, hcb, hca, ht, hf, hnd⟩
  · split
    · exact ⟨hs, hcb, hca, ht, hf, hnd⟩
    · next h1 h2 =>
      obtain ⟨p1, p2, p3, p4, p5⟩ := placeOrder_wf b o hs.1 hs.2 hcb hca hnd hdup
      obtain ⟨m1, m2, m3, m4, m5⟩ := matchOrders_wf (placeOrder b o) p1 p2 p3 p4 p5
      refine ⟨m1, m2, m3, m4, ?_, m5⟩
      by_cases hfak : o.orderType = OrderType.FillAndKill
      · have hcm : canMatch b o.side o.price = true := by
          by_contra hq
          exact h1 ⟨hfak, by simpa using hq⟩
        rcases hside : o.side with _ | _
        · rw [hside] at hcm
          unfold canMatch at hcm
          rcases hA : b.asks with _ | ⟨⟨ap, aq⟩, restA⟩
          · rw [hA] at hcm
            simp at hcm
          · rw [hA] at hcm
            have hge : o.price ≥ ap := by simpa using hcm
            obtain ⟨e1, e2⟩ := placeOrder_buy b o hside
            have htopb : fakOnlyTopBid (placeOrder b o).bids := by
              rw [e1]
              rcases hB : b.bids with _ | ⟨⟨bp, bq⟩, restB⟩
              · refine ⟨?_, ?_⟩
                · intro x hx
                  simp [insertBid] at hx
                · intro lv hlv
                  simp [insertBid] at hlv
              · have hlt : bp < ap := by
                  have h3 := ht
                  unfold topsOrdered at h3
                  rw [hA, hB] at h3
                  exact h3
                have hgt : o.price > bp := by omega
                rw [insertBid_cons_gt o bp bq restB hgt]
                refine ⟨by intro x hx; simp at hx, ?_⟩
                apply clean_levels_of_sideOrders
                rw [← hB]
                exact noFAK_bids_part b hf
            have haclean : noFAKOrders (sideOrders (placeOrder b o).asks) := by
              rw [e2]
              exact noFAK_asks_part b hf
            exact matchOrders_noFAK_bidTop (placeOrder b o) p1 p2 p3 p4 htopb haclean
        · rw [hside] at hcm
          unfold canMatch at hcm
          rcases hB : b.bids with _ | ⟨⟨bp, bq⟩, restB⟩
          · rw [hB] at hcm
            simp at hcm
          · rw [hB] at hcm
            have hle : o.price ≤ bp := by simpa using hcm
            obtain ⟨e1, e2⟩ := placeOrder_sell b o hside
            have htopa : fakOnlyTopAsk (placeOrder b o).asks := by
              rw [e2]
              rcases hA : b.asks with _ | ⟨⟨ap, aq⟩, restA⟩
              · refine ⟨?_, ?_⟩
                · intro x hx
                  simp [insertAsk] at hx
                · intro lv hlv
                  simp [insertAsk] at hlv
              · have hlt : bp < ap := by
                  have h3 := ht
                  unfold topsOrdered at h3
                  rw [hA, hB] at h3
                  exact h3
                have hgt : o.price < ap := by omega
                rw [insertAsk_cons_lt o ap aq restA hgt]
                refine ⟨by intro x hx; simp at hx, ?_⟩
                apply clean_levels_of_sideOrders
                rw [← hA]
                exact noFAK_asks_part b hf
            have hbclean : noFAKOrders (sideOrders (placeOrder b o).bids) := by
              rw [e1]
              exact noFAK_bids_part b hf
            exact matchOrders_noFAK_askTop (placeOrder b o) p1 p2 p3 p4 p5 htopa hbclean
      · have hoclean : noFAKOrders ((placeOrder b o).orders) := by
          intro x hx
          have hx2 := (placeOrder_orders_perm b o).subset hx
          rcases List.mem_cons.mp hx2 with h3 | h3
          · rw [h3]
            exact hfak
          · exact hf x h3
        have htopb : fakOnlyTopBid (placeOrder b o).bids :=
          fakOnlyTopBid_of_clean _ (clean_levels_of_sideOrders _ (noFAK_bids_part _ hoclean))
        have haclean : noFAKOrders (sideOrders (placeOrder b o).asks) :=
          noFAK_asks_part _ hoclean
        exact matchOrders_noFAK_bidTop (placeOrder b o) p1 p2 p3 p4 htopb haclean

theorem addOrder_wf (b : Book) (o : Order) (h : WFBook b) : WFBook (addOrder b o).2 := by
  unfold addOrder
  split
  · exact h
  · next hdup =>
    have hdup2 : b.containsId o.orderId = false := by simpa using hdup
    split
    · split
      · exact addOrderWorker_wf b _ h hdup2
      · split
        · exact addOrderWorker_wf b _ h hdup2
        · exact h
    · exact addOrderWorker_wf b o h hdup2

theorem applyCommand_wf (b : Book) (c : Command) (h : WFBook b) :
    WFBook (applyCommand b c) := by
  cases c with
  | add o => exact addOrder_wf b o h
  | cancel id => exact cancelOrderInternal_wf b id h
  | modify m =>
    show WFBook (modifyOrder b m).2
    unfold modifyOrder
    split
    · exact h
    · exact addOrder_wf _ _ (cancelOrderInternal_wf b _ h)
  | cancelMany ids => exact cancelOrders_wf b ids h

theorem emptyBook_wf : WFBook emptyBook := by
  refine ⟨⟨by simp [emptyBook], by simp [emptyBook]⟩, ?_, ?_, trivial, ?_, ?_⟩
  · intro lv hlv
    simp [emptyBook] at hlv
  · intro lv hlv
    simp [emptyBook] at hlv
  · intro x hx
    simp [emptyBook, Book.orders] at hx
  · simp [emptyBook, Book.orders, sideOrders]

theorem runCommands_wf (cs : List Command) : WFBook (runCommands cs) := by
  unfold runCommands
  have h : ∀ (b : Book), WFBook b → WFBook (cs.foldl applyCommand b) := by
    induction cs with
    | nil => exact fun b hb => hb
    | cons c rest ih =>
      intro b hb
      simp only [List.foldl_cons]
      exact ih _ (applyCommand_wf b c hb)
  exact h emptyBook emptyBook_wf

theorem foldl_max_of_lt (t : List Int) (x : Int) (h : ∀ y ∈ t, y < x) :
    t.foldl max x = x := by
  induction t generalizing x with
  | nil => rfl
  | cons y rest ih =>
    simp only [List.foldl_cons]
    have h1 : max x y = x := max_eq_left (le_of_lt (h y (List.mem_cons_self _ _)))
    rw [h1]
    exact ih x (fun z hz => h z (List.mem_cons_of_mem _ hz))

theorem foldl_min_of_lt (t : List Int) (x : Int) (h : ∀ y ∈ t, x < y) :
    t.foldl min x = x := by
  induction t generalizing x with
  | nil => rfl
  | cons y rest ih =>
    simp only [List.foldl_cons]
    have h1 : min x y = x := min_eq_left (le_of_lt (h y (List.mem_cons_self _ _)))
    rw [h1]
    exact ih x (fun z hz => h z (List.mem_cons_of_mem _ hz))

theorem max?_eq_head_of_sorted_gt (l : List Int)
    (h : l.Pairwise (fun x y => x > y)) : l.max? = l.head? := by
  cases l with
  | nil => rfl
  | cons x t =>
    rw [List.max?_cons, List.head?_cons]
    have hall := (List.pairwise_cons.mp h).1
    cases hm : t.max? with
    | none => simp
    | some m =>
      have hmem : m ∈ t := List.max?_mem (fun a b => max_choice a b) hm
      simp only [Option.elim]
      exact congrArg some (max_eq_left (le_of_lt (hall m hmem)))

theorem min?_eq_head_of_sorted_lt (l : List Int)
    (h : l.Pairwise (fun x y => x < y)) : l.min? = l.head? := by
  cases l with
  | nil => rfl
  | cons x t =>
    rw [List.min?_cons, List.head?_cons]
    have hall := (List.pairwise_cons.mp h).1
    cases hm : t.min? with
    | none => simp
    | some m =>
      have hmem : m ∈ t := List.min?_mem (fun a b => min_choice a b) hm
      simp only [Option.elim]
      exact congrArg some (min_eq_left (le_of_lt (hall m hmem)))

/-- Claim C4: after every public operation completes, whenever both sides
of the book are non-empty, the best (highest) resting bid price is strictly
below the best (lowest) resting ask price. -/
theorem c4_best_bid_below_best_ask (cs : List Command) (pb pa : Int)
    (hb : bestBidPrice (runCommands cs) = some pb)
    (ha : bestAskPrice (runCommands cs) = some pa) :
    pb < pa := by
  obtain ⟨hs, _, _, ht, _, _⟩ := runCommands_wf cs
  unfold bestBidPrice at hb
  unfold bestAskPrice at ha
  rw [max?_eq_head_of_sorted_gt _ hs.1] at hb
  rw [min?_eq_head_of_sorted_lt _ hs.2] at ha
  rcases hB : (runCommands cs).bids with _ | ⟨⟨bp, bq⟩, restB⟩
  · rw [hB] at hb
    simp at hb
  · rcases hA : (runCommands cs).asks with _ | ⟨⟨ap, aq⟩, restA⟩
    · rw [hA] at ha
      simp at ha
    · rw [hB] at hb
      rw [hA] at ha
      simp only [List.map_cons, List.head?_cons, Option.some_inj] at hb ha
      unfold topsOrdered at ht
      rw [hB, hA] at ht
      omega

theorem c4_witness : (90 : Int) < 100 := by
  refine c4_best_bid_below_best_ask
    [Command.add (Order.make OrderType.GoodTillCancel 1 Side.Buy 90 5),
     Command.add (Order.make OrderType.GoodTillCancel 2 Side.Sell 100 5)] 90 100 ?_ ?_ <;>
  simp [runCommands, applyCommand, addOrder, addOrderWorker, placeOrder, matchOrders,
    matchLoop, matchLevel, fakCancelTopBid, fakCancelTopAsk, emptyBook, Book.containsId,
    Book.orders, canMatch, insertBid, insertAsk, onOrderAdded, updateLevelData, lookupData,
    storeData, eraseData, add32, U32, Order.make, bestBidPrice, bestAskPrice,
    cancelOrder, cancelOrderInternal, Book.findOrder, List.max?, List.min?]

/-- Claim C6: a Fill-And-Kill order never rests on the book — a
non-crossing Fill-And-Kill is rejected by `AddOrder` with no trades and no
state change, and no order of any reachable book state has type
Fill-And-Kill. -/
theorem c6_fak_never_rests :
    (∀ (cs : List Command) (o : Order), o ∈ (runCommands cs).orders →
      o.orderType ≠ OrderType.FillAndKill)
    ∧ (∀ (b : Book) (o : Order), o.orderType = OrderType.FillAndKill →
      canMatch b o.side o.price = false → addOrder b o = ([], b)) := by
  constructor
  · intro cs o ho
    exact (runCommands_wf cs).2.2.2.2.1 o ho
  · intro b o hfak hcm
    unfold addOrder
    split
    · rfl
    · rw [if_neg (by rw [hfak]; exact fun hcon => OrderType.noConfusion hcon)]
      unfold addOrderWorker
      rw [if_pos ⟨hfak, by simp [hcm]⟩]

theorem c6_witness :
    (Order.make OrderType.GoodTillCancel 1 Side.Buy 90 5).orderType
      ≠ OrderType.FillAndKill
    ∧ addOrder emptyBook (Order.make OrderType.FillAndKill 7 Side.Buy 100 5)
      = ([], emptyBook) := by
  constructor
  · apply c6_fak_never_rests.1 [Command.add (Order.make OrderType.GoodTillCancel 1 Side.Buy 90 5)]
    simp [runCommands, applyCommand, addOrder, addOrderWorker, placeOrder, matchOrders,
      matchLoop, matchLevel, fakCancelTopBid, fakCancelTopAsk, emptyBook, Book.containsId,
      Book.orders, canMatch, insertBid, onOrderAdded, updateLevelData, lookupData,
      storeData, eraseData, add32, U32, Order.make, sideOrders]
  · exact c6_fak_never_rests.2 emptyBook _ rfl rfl

theorem canFullyFillLoop_eq_sum (s : Side) (price t : Int) (d : DataMap) :
    ∀ (q : Nat), 0 < q →
    canFullyFillLoop s price (some t) d q
      = decide (q ≤ ((d.filter (fun e => isReachable s price t e.1)).map
          (fun e => e.2.quantity)).sum) := by
  induction d with
  | nil =>
    intro q hq
    simp only [canFullyFillLoop, List.filter_nil, List.map_nil, List.sum_nil]
    rw [eq_comm, decide_eq_false_iff_not]
    omega
  | cons e rest ih =>
    intro q hq
    obtain ⟨lp, ld⟩ := e
    rcases s with _ | _
    · -- Buy
      unfold canFullyFillLoop
      by_cases h1 : t > lp
      · rw [if_pos (by simp [h1])]
        rw [ih q hq]
        have hr : isReachable Side.Buy price t lp = false := by
          simp [isReachable]
          omega
        rw [List.filter_cons_of_neg (by simp [hr])]
      · by_cases h2 : lp > price
        · rw [if_neg (by simp; omega), if_pos (by simp [h2])]
          rw [ih q hq]
          have hr : isReachable Side.Buy price t lp = false := by
            simp [isReachable]
            omega
          rw [List.filter_cons_of_neg (by simp [hr])]
        · have hr : isReachable Side.Buy price t lp = true := by
            simp [isReachable]
            omega
          rw [if_neg (by simp; omega), if_neg (by simp; omega)]
          rw [List.filter_cons_of_pos (by simp [hr])]
          simp only [List.map_cons, List.sum_cons]
          by_cases h3 : q ≤ ld.quantity
          · rw [if_pos h3, eq_comm, decide_eq_true_iff]
            omega
          · rw [if_neg h3, ih (q - ld.quantity) (by omega)]
            rw [decide_eq_decide]
            omega
    · -- Sell
      unfold canFullyFillLoop
      by_cases h1 : t < lp
      · rw [if_pos (by simp [h1])]
        rw [ih q hq]
        have hr : isReachable Side.Sell price t lp = false := by
          simp [isReachable]
          omega
        rw [List.filter_cons_of_neg (by simp [hr])]
      · by_cases h2 : lp < price
        · rw [if_neg (by simp; omega), if_pos (by simp [h2])]
          rw [ih q hq]
          have hr : isReachable Side.Sell price t lp = false := by
            simp [isReachable]
            omega
          rw [List.filter_cons_of_neg (by simp [hr])]
        · have hr : isReachable Side.Sell price t lp = true := by
            simp [isReachable]
            omega
          rw [if_neg (by simp; omega), if_neg (by simp; omega)]
          rw [List.filter_cons_of_pos (by simp [hr])]
          simp only [List.map_cons, List.sum_cons]
          by_cases h3 : q ≤ ld.quantity
          · rw [if_pos h3, eq_comm, decide_eq_true_iff]
            omega
          · rw [if_neg h3, ih (q - ld.quantity) (by omega)]
            rw [decide_eq_decide]
            omega

/-- Claim C2: `CanFullyFill` returns false whenever `CanMatch` is false;
otherwise (for the positive quantities the spec admits) it returns true iff
the sum of `data_[p].quantity` over every reachable price is at least the
requested quantity; and `AddOrder` of a Fill-Or-Kill order for which the
predicate is false returns no trades and leaves the book unchanged. -/
theorem c2_canFullyFill_spec :
    ∀ (b : Book) (s : Side) (price : Int) (q : Nat),
      (canMatch b s price = false → canFullyFill b s price q = false)
      ∧ (0 < q → canFullyFill b s price q
          = (canMatch b s price && decide (q ≤ reachableSum b s price)))
      ∧ (∀ o : Order, o.orderType = OrderType.FillOrKill →
          canFullyFill b o.side o.price o.initialQuantity = false →
          addOrder b o = ([], b)) := by
  intro b s price q
  refine ⟨?_, ?_, ?_⟩
  · intro h
    simp [canFullyFill, h]
  · intro hq
    cases hcm : canMatch b s price with
    | false => simp [canFullyFill, hcm]
    | true =>
      unfold canFullyFill reachableSum
      rw [hcm]
      simp only [Bool.not_true, Bool.false_eq_true, if_false, Bool.true_and]
      rcases s with _ | _
      · exact canFullyFillLoop_eq_sum Side.Buy price _ b.data q hq
      · exact canFullyFillLoop_eq_sum Side.Sell price _ b.data q hq
  · intro o hfok hcff
    unfold addOrder
    split
    · rfl
    · rw [if_neg (by rw [hfok]; exact fun hcon => OrderType.noConfusion hcon)]
      unfold addOrderWorker
      rw [if_neg (by rintro ⟨hf, _⟩; rw [hfok] at hf; exact OrderType.noConfusion hf)]
      rw [if_pos ⟨hfok, by simp [hcff]⟩]

theorem c2_witness :
    canFullyFill c2DemoBook Side.Buy 100 3 = true
    ∧ canFullyFill c2DemoBook Side.Sell 50 1 = false
    ∧ addOrder c2DemoBook (Order.make OrderType.FillOrKill 9 Side.Buy 100 9)
      = ([], c2DemoBook) := by
  refine ⟨?_, ?_, ?_⟩
  · rw [(c2_canFullyFill_spec c2DemoBook Side.Buy 100 3).2.1 (by decide)]
    decide
  · exact (c2_canFullyFill_spec c2DemoBook Side.Sell 50 1).1 (by decide)
  · exact (c2_canFullyFill_spec c2DemoBook Side.Buy 100 9).2.2
      (Order.make OrderType.FillOrKill 9 Side.Buy 100 9) rfl (by decide)

theorem getLastD_key_mem : ∀ (s : SideMap) (d : Level), s ≠ [] →
    (s.getLastD d).1 ∈ s.map Prod.fst := by
  intro s
  induction s with
  | nil => intro d h; cases h rfl
  | cons lv rest ih =>
    intro d h
    rw [List.getLastD_cons]
    cases hr : rest with
    | nil =>
      subst hr
      simp [List.getLastD]
    | cons lv2 rest2 =>
      have h2 := ih lv (by rw [hr]; exact List.cons_ne_nil _ _)
      rw [hr] at h2
      rw [List.map_cons]
      exact List.mem_cons_of_mem _ h2

theorem getLastD_key_ub_asc : ∀ (s : SideMap) (d : Level), s ≠ [] →
    (s.map Prod.fst).Pairwise (fun x y => x < y) →
    ∀ p ∈ s.map Prod.fst, p ≤ (s.getLastD d).1 := by
  intro s
  induction s with
  | nil => intro d h; cases h rfl
  | cons lv rest ih =>
    intro d h hs p hp
    rw [List.getLastD_cons]
    rw [List.map_cons] at hs hp
    have hps := List.pairwise_cons.mp hs
    cases hr : rest with
    | nil =>
      subst hr
      simp only [List.map_nil] at hp
      rcases List.mem_cons.mp hp with h2 | h2
      · simp [List.getLastD, h2]
      · simp at h2
    | cons lv2 rest2 =>
      have hne2 : rest ≠ [] := by rw [hr]; exact List.cons_ne_nil _ _
      have hmem := getLastD_key_mem rest lv hne2
      rcases List.mem_cons.mp hp with h2 | h2
      · rw [← hr]
        have := hps.1 _ hmem
        omega
      · rw [← hr]
        exact ih lv hne2 hps.2 p h2

theorem getLastD_key_lb_desc : ∀ (s : SideMap) (d : Level), s ≠ [] →
    (s.map Prod.fst).Pairwise (fun x y => x > y) →
    ∀ p ∈ s.map Prod.fst, (s.getLastD d).1 ≤ p := by
  intro s
  induction s with
  | nil => intro d h; cases h rfl
  | cons lv rest ih =>
    intro d h hs p hp
    rw [List.getLastD_cons]
    rw [List.map_cons] at hs hp
    have hps := List.pairwise_cons.mp hs
    cases hr : rest with
    | nil =>
      subst hr
      simp only [List.map_nil] at hp
      rcases List.mem_cons.mp hp with h2 | h2
      · simp [List.getLastD, h2]
      · simp at h2
    | cons lv2 rest2 =>
      have hne2 : rest ≠ [] := by rw [hr]; exact List.cons_ne_nil _ _
      have hmem := getLastD_key_mem rest lv hne2
      rcases List.mem_cons.mp hp with h2 | h2
      · rw [← hr]
        have := hps.1 _ hmem
        omega
      · rw [← hr]
        exact ih lv hne2 hps.2 p h2

/-- Claim C3: `AddOrder` of a Market order with a non-empty opposite side
behaves exactly like `AddOrder` of the same order rewritten as
Good-Till-Cancel at the worst opposite price before any matching (for a
Buy the highest resting ask price, for a Sell the lowest resting bid price
— the bound conjuncts); with an empty opposite side it returns no trades
and leaves the book unchanged. -/
theorem c3_market_conversion :
    ∀ (b : Book) (o : Order), o.orderType = OrderType.Market →
      (o.side = Side.Buy → b.asks ≠ [] →
        addOrder b o = addOrder b (o.ToGoodTillCancel (worstAsk b)))
      ∧ (o.side = Side.Sell → b.bids ≠ [] →
        addOrder b o = addOrder b (o.ToGoodTillCancel (worstBid b)))
      ∧ ((o.side = Side.Buy ∧ b.asks = []) ∨ (o.side = Side.Sell ∧ b.bids = []) →
        addOrder b o = ([], b))
      ∧ ((b.asks.map Prod.fst).Pairwise (fun x y => x < y) → b.asks ≠ [] →
        worstAsk b ∈ b.asks.map Prod.fst ∧ ∀ p ∈ b.asks.map Prod.fst, p ≤ worstAsk b)
      ∧ ((b.bids.map Prod.fst).Pairwise (fun x y => x > y) → b.bids ≠ [] →
        worstBid b ∈ b.bids.map Prod.fst ∧ ∀ p ∈ b.bids.map Prod.fst, worstBid b ≤ p) := by
  intro b o hm
  refine ⟨?_, ?_, ?_, ?_, ?_⟩
  · intro hside hne
    unfold addOrder
    simp only [Order.ToGoodTillCancel]
    cases hdup : b.containsId o.orderId with
    | true => simp [hdup]
    | false => simp [hdup, hm, hside, hne, addOrderWorker]
  · intro hside hne
    unfold addOrder
    simp only [Order.ToGoodTillCancel]
    cases hdup : b.containsId o.orderId with
    | true => simp [hdup]
    | false =>
      have hnb : o.side = Side.Buy → False := by rw [hside]; exact fun hcon => Side.noConfusion hcon
      simp [hdup, hm, hside, hne, hnb, addOrderWorker]
  · intro hcase
    unfold addOrder
    cases hdup : b.containsId o.orderId with
    | true => simp [hdup]
    | false =>
      rcases hcase with ⟨hside, hempty⟩ | ⟨hside, hempty⟩
      · have hns : o.side = Side.Sell → False := by
          rw [hside]; exact fun hcon => Side.noConfusion hcon
        simp [hdup, hm, hside, hempty, hns]
      · have hnb : o.side = Side.Buy → False := by
          rw [hside]; exact fun hcon => Side.noConfusion hcon
        simp [hdup, hm, hside, hempty, hnb]
  · intro hs hne
    unfold worstAsk
    exact ⟨getLastD_key_mem b.asks (0, []) hne, getLastD_key_ub_asc b.asks (0, []) hne hs⟩
  · intro hs hne
    unfold worstBid
    exact ⟨getLastD_key_mem b.bids (0, []) hne, getLastD_key_lb_desc b.bids (0, []) hne hs⟩

theorem c3_witness :
    addOrder c2DemoBook (Order.make OrderType.Market 4 Side.Buy Constants.InvalidPrice 2)
      = addOrder c2DemoBook
          ((Order.make OrderType.Market 4 Side.Buy Constants.InvalidPrice 2).ToGoodTillCancel
            (worstAsk c2DemoBook))
    ∧ addOrder c2DemoBook (Order.make OrderType.Market 5 Side.Sell Constants.InvalidPrice 2)
      = ([], c2DemoBook) := by
  constructor
  · exact ((c3_market_conversion c2DemoBook _ rfl).1) rfl (by decide)
  · exact ((c3_market_conversion c2DemoBook _ rfl).2.2.1) (Or.inr ⟨rfl, rfl⟩)


theorem trade_src_tail (x : Order) (rest : List Order) (tid : Nat) (tp : Int)
    (h : ∃ bo ∈ rest, tid = bo.orderId ∧ tp = bo.price) :
    ∃ bo ∈ x :: rest, tid = bo.orderId ∧ tp = bo.price := by
  obtain ⟨bo, hmem, h1, h2⟩ := h
  exact ⟨bo, List.mem_cons_of_mem _ hmem, h1, h2⟩

theorem trade_src_fill (x : Order) (qf : Nat) (rest : List Order) (tid : Nat) (tp : Int)
    (h : ∃ bo ∈ x.Fill qf :: rest, tid = bo.orderId ∧ tp = bo.price) :
    ∃ bo ∈ x :: rest, tid = bo.orderId ∧ tp = bo.price := by
  obtain ⟨bo, hmem, h1, h2⟩ := h
  rcases List.mem_cons.mp hmem with h3 | h3
  · subst h3
    exact ⟨x, List.mem_cons_self _ _, h1, h2⟩
  · exact ⟨bo, List.mem_cons_of_mem _ h3, h1, h2⟩

theorem matchLevel_trades_shape (bids asks : List Order) (d : DataMap) :
    ∀ t ∈ (matchLevel bids asks d).trades,
      t.bidTrade.quantity = t.askTrade.quantity
      ∧ (∃ bo ∈ bids, t.bidTrade.orderId = bo.orderId ∧ t.bidTrade.price = bo.price)
      ∧ (∃ ao ∈ asks, t.askTrade.orderId = ao.orderId ∧ t.askTrade.price = ao.price) := by
  induction bids, asks, d using matchLevel.induct with
  | case1 d asksLeft =>
    intro t ht
    simp [matchLevel] at ht
  | case2 d bid bidsRest =>
    intro t ht
    simp [matchLevel] at ht
  | case3 d bid bidsRest ask asksRest q b' a' d2 hb ha ih =>
    simp only [q, b', a', d2] at ih
    intro t ht
    unfold matchLevel at ht
    rw [dif_pos hb, dif_pos ha] at ht
    dsimp only at ht
    rcases List.mem_cons.mp ht with h3 | h3
    · subst h3
      exact ⟨rfl, ⟨bid, List.mem_cons_self _ _, rfl, rfl⟩,
        ⟨ask, List.mem_cons_self _ _, rfl, rfl⟩⟩
    · obtain ⟨c1, c2, c3⟩ := ih t h3
      exact ⟨c1, trade_src_tail bid _ _ _ c2, trade_src_tail ask _ _ _ c3⟩
  | case4 d bid bidsRest ask asksRest q b' a' d2 hb ha ih =>
    simp only [q, b', a', d2] at ih
    intro t ht
    unfold matchLevel at ht
    rw [dif_pos hb, dif_neg ha] at ht
    dsimp only at ht
    rcases List.mem_cons.mp ht with h3 | h3
    · subst h3
      exact ⟨rfl, ⟨bid, List.mem_cons_self _ _, rfl, rfl⟩,
        ⟨ask, List.mem_cons_self _ _, rfl, rfl⟩⟩
    · obtain ⟨c1, c2, c3⟩ := ih t h3
      exact ⟨c1, trade_src_tail bid _ _ _ c2, trade_src_fill ask _ _ _ _ c3⟩
  | case5 d bid bidsRest ask asksRest q b' a' d2 hb ha ih =>
    simp only [q, b', a', d2] at ih
    intro t ht
    unfold matchLevel at ht
    rw [dif_neg hb, dif_pos ha] at ht
    dsimp only at ht
    rcases List.mem_cons.mp ht with h3 | h3
    · subst h3
      exact ⟨rfl, ⟨bid, List.mem_cons_self _ _, rfl, rfl⟩,
        ⟨ask, List.mem_cons_self _ _, rfl, rfl⟩⟩
    · obtain ⟨c1, c2, c3⟩ := ih t h3
      exact ⟨c1, trade_src_fill bid _ _ _ _ c2, trade_src_tail ask _ _ _ c3⟩
  | case6 d bid bidsRest ask asksRest q b' a' d2 hb ha ih =>
    simp only [q, b', a', d2] at ih
    intro t ht
    unfold matchLevel at ht
    rw [dif_neg hb, dif_neg ha] at ht
    dsimp only at ht
    rcases List.mem_cons.mp ht with h3 | h3
    · subst h3
      exact ⟨rfl, ⟨bid, List.mem_cons_self _ _, rfl, rfl⟩,
        ⟨ask, List.mem_cons_self _ _, rfl, rfl⟩⟩
    · obtain ⟨c1, c2, c3⟩ := ih t h3
      exact ⟨c1, trade_src_fill bid _ _ _ _ c2, trade_src_fill ask _ _ _ _ c3⟩

/-- Claim C5: every trade emitted by the inner matching loop executes the
minimum of the two head orders' remaining quantities at the moment of
matching (first conjunct: the trade emitted for the current heads executes
exactly min of the two remaining quantities), records the same executed
quantity on both sides, and carries each side's own resting order id and
price, not a single crossed price (second conjunct). -/
theorem c5_trade_fields :
    (∀ (bid : Order) (bids : List Order) (ask : Order) (asks : List Order) (d : DataMap),
      ((matchLevel (bid :: bids) (ask :: asks) d).trades).head?
        = some ⟨⟨bid.orderId, bid.price, min bid.remainingQuantity ask.remainingQuantity⟩,
                ⟨ask.orderId, ask.price, min bid.remainingQuantity ask.remainingQuantity⟩⟩)
    ∧ (∀ (bids asks : List Order) (d : DataMap), ∀ t ∈ (matchLevel bids asks d).trades,
      t.bidTrade.quantity = t.askTrade.quantity
      ∧ (∃ bo ∈ bids, t.bidTrade.orderId = bo.orderId ∧ t.bidTrade.price = bo.price)
      ∧ (∃ ao ∈ asks, t.askTrade.orderId = ao.orderId ∧ t.askTrade.price = ao.price)) := by
  constructor
  · intro bid bids ask asks d
    unfold matchLevel
    by_cases hb : (bid.Fill (min bid.remainingQuantity ask.remainingQuantity)).IsFilled = true
    · by_cases ha : (ask.Fill (min bid.remainingQuantity ask.remainingQuantity)).IsFilled = true
      · rw [dif_pos hb, dif_pos ha]
        rfl
      · rw [dif_pos hb, dif_neg ha]
        rfl
    · by_cases ha : (ask.Fill (min bid.remainingQuantity ask.remainingQuantity)).IsFilled = true
      · rw [dif_neg hb, dif_pos ha]
        rfl
      · rw [dif_neg hb, dif_neg ha]
        rfl
  · exact matchLevel_trades_shape

theorem c5_witness :
    (Order.make OrderType.GoodTillCancel 1 Side.Buy 101 5).orderId = 1 := by
  have h := c5_trade_fields.2 [Order.make OrderType.GoodTillCancel 1 Side.Buy 101 5]
    [Order.make OrderType.GoodTillCancel 2 Side.Sell 100 3] []
    ⟨⟨1, 101, 3⟩, ⟨2, 100, 3⟩⟩ (by
      simp [matchLevel, Order.make, Order.Fill, Order.IsFilled, onOrderMatched,
        updateLevelData, lookupData, storeData, eraseData])
  obtain ⟨c1, ⟨bo, hmem, h1, h2⟩, c3⟩ := h
  have hbo : bo = Order.make OrderType.GoodTillCancel 1 Side.Buy 101 5 := by
    simpa using hmem
  rw [hbo] at h1
  exact h1.symm

/-- Claim C7: `ModifyOrder` is exactly cancel-then-add — it cancels the
existing order and re-adds the modified one converted via `ToOrderPointer`
with the existing order's type; if the order id is unknown, `CancelOrder`
is a no-op and the re-add of the (absent) order leaves the book unchanged
with no trades. -/
theorem c7_modify_is_cancel_then_add :
    ∀ (b : Book) (m : OrderModify),
      modifyOrder b m = modifyOrderSpec b m
      ∧ (b.findOrder m.orderId = none → modifyOrder b m = ([], b)) := by
  intro b m
  constructor
  · unfold modifyOrder modifyOrderSpec OrderModify.ToOrderPointer
    rfl
  · intro h
    unfold modifyOrder
    rw [h]

theorem c7_witness : modifyOrder emptyBook ⟨5, 100, Side.Buy, 7⟩ = ([], emptyBook) :=
  (c7_modify_is_cancel_then_add emptyBook ⟨5, 100, Side.Buy, 7⟩).2 rfl

/-- Claim C8: the sentinel `Constants.InvalidPrice`, defined in the code as
`std::numeric_limits<int32_t>::quiet_NaN()`, evaluates to 0 for an integral
type, which is a valid, parseable tick price: the parser maps the token "0"
to the sentinel value itself, and a Good-Till-Cancel order at price 0 is
accepted and rests on the book. -/
theorem c8_invalidPrice_is_zero :
    Constants.InvalidPrice = 0
    ∧ InputHandler.ParsePrice "0" = Except.ok Constants.InvalidPrice
    ∧ (addOrder emptyBook (Order.make OrderType.GoodTillCancel 1 Side.Buy
        Constants.InvalidPrice 5)).2.size = 1 := by
  refine ⟨rfl, rfl, ?_⟩
  simp [addOrder, addOrderWorker, placeOrder, matchOrders, matchLoop, emptyBook,
    Book.containsId, Book.orders, Book.size, canMatch, insertBid,
    fakCancelTopBid, fakCancelTopAsk, Order.IsFilled, Order.Fill, sub32,
    onOrderAdded, updateLevelData, lookupData, storeData, eraseData, add32, U32,
    Order.make, Constants.InvalidPrice]

/-- Counterexample to claim C9 as stated: the token "abc" is malformed, yet
`ToNumber` does not fail — `std::from_chars`' error code is ignored, the
uninitialized-on-error value behaves as 0, and the function returns 0. -/
theorem c9_counterexample : InputHandler.ToNumber "abc" = Except.ok 0 := rfl

theorem leadingDigits_eq_nil (l : List Char) (h : ∀ c ∈ l, c.isDigit = false) :
    InputHandler.leadingDigits l = [] := by
  cases l with
  | nil => rfl
  | cons c cs =>
    have hc : c.isDigit = false := h c (List.mem_cons_self _ _)
    simp [InputHandler.leadingDigits, List.takeWhile_cons, hc]

/-- Claim C9 (amended): `ToNumber` raises the fatal "Value is below zero."
error exactly when the parsed value is negative; tokens with no digits are
not detected as errors — the `from_chars` result code is ignored and the
value 0 is returned silently. -/
theorem c9_tonumber_negative_and_malformed :
    (∀ s : String, InputHandler.fromCharsInt64 s < 0 →
      InputHandler.ToNumber s = Except.error "Value is below zero.")
    ∧ (∀ s : String, (∀ c ∈ s.toList, c.isDigit = false) →
      InputHandler.ToNumber s = Except.ok 0) := by
  constructor
  · intro s h
    simp [InputHandler.ToNumber, h]
  · intro s h
    have hz : InputHandler.fromCharsInt64 s = 0 := by
      unfold InputHandler.fromCharsInt64
      split
      · next rest heq =>
        have hd : InputHandler.leadingDigits rest = [] := by
          apply leadingDigits_eq_nil
          intro c hc
          apply h
          rw [heq]
          exact List.mem_cons_of_mem _ hc
        simp [hd]
      · next cs heq =>
        have hd : InputHandler.leadingDigits s.data = [] := by
          apply leadingDigits_eq_nil
          intro c hc
          exact h c hc
        simp [hd]
    simp [InputHandler.ToNumber, hz]

theorem c9_witness :
    InputHandler.ToNumber "-7" = Except.error "Value is below zero."
    ∧ InputHandler.ToNumber "abc" = Except.ok 0 :=
  ⟨c9_tonumber_negative_and_malformed.1 "-7" (by decide),
   c9_tonumber_negative_and_malformed.2 "abc" (by decide)⟩

/-- Claim C1 refuted (code bug): after two resting sells of 3 and 4 lots at
price 100 and an aggressive buy of 5 lots, a sell order with remaining
quantity 2 still rests at price 100, yet the level-data map is empty — the
blanket `data_.erase` in `MatchOrders` removed the price-100 entry when the
bid queue at that price emptied, so the entry required by the claim
(count 1, aggregate quantity 2) is absent. -/
theorem c1_levelData_lost :
    (runCommands c1Trace).bids = []
    ∧ (runCommands c1Trace).asks
      = [(100, [⟨OrderType.GoodTillCancel, 2, Side.Sell, 100, 4, 2⟩])]
    ∧ (runCommands c1Trace).data = [] := by
  refine ⟨?_, ?_, ?_⟩ <;>
  simp [c1Trace, runCommands, applyCommand, addOrder, addOrderWorker, placeOrder,
    matchOrders, matchLoop, matchLevel, fakCancelTopBid, fakCancelTopAsk, emptyBook,
    Book.containsId, Book.orders, canMatch, insertBid, insertAsk, onOrderAdded,
    onOrderMatched, updateLevelData, lookupData, storeData, eraseData, add32, sub32,
    U32, Order.make, Order.Fill, Order.IsFilled]

/-- Claim C10: a Good-Till-Cancel order with quantity 0 is not rejected —
it is accepted and rests on the book (it is born "filled": remaining
quantity 0); an aggressive buy arriving at its price matches it first,
emitting a trade of executed quantity 0 against it, after which it is
removed and the aggressor's full quantity survives as a new resting bid. -/
theorem c10_zero_quantity_accepted :
    (addOrder emptyBook (Order.make OrderType.GoodTillCancel 1 Side.Sell 100 0)).1 = []
    ∧ (addOrder emptyBook (Order.make OrderType.GoodTillCancel 1 Side.Sell 100 0)).2.size = 1
    ∧ (addOrder emptyBook (Order.make OrderType.GoodTillCancel 1 Side.Sell 100 0)).2.findOrder 1
      = some (Order.make OrderType.GoodTillCancel 1 Side.Sell 100 0)
    ∧ (Order.make OrderType.GoodTillCancel 1 Side.Sell 100 0).IsFilled = true
    ∧ (addOrder (addOrder emptyBook (Order.make OrderType.GoodTillCancel 1 Side.Sell 100 0)).2
        (Order.make OrderType.GoodTillCancel 2 Side.Buy 100 5)).1
      = [⟨⟨2, 100, 0⟩, ⟨1, 100, 0⟩⟩]
    ∧ (addOrder (addOrder emptyBook (Order.make OrderType.GoodTillCancel 1 Side.Sell 100 0)).2
        (Order.make OrderType.GoodTillCancel 2 Side.Buy 100 5)).2.findOrder 1 = none
    ∧ (addOrder (addOrder emptyBook (Order.make OrderType.GoodTillCancel 1 Side.Sell 100 0)).2
        (Order.make OrderType.GoodTillCancel 2 Side.Buy 100 5)).2.bids
      = [(100, [⟨OrderType.GoodTillCancel, 2, Side.Buy, 100, 5, 5⟩])] := by
  refine ⟨?_, ?_, ?_, ?_, ?_, ?_, ?_⟩ <;>
  simp [addOrder, addOrderWorker, placeOrder, matchOrders, matchLoop, matchLevel,
    fakCancelTopBid, fakCancelTopAsk, emptyBook, Book.containsId, Book.orders,
    Book.size, Book.findOrder, canMatch, insertBid, insertAsk, onOrderAdded,
    onOrderMatched, updateLevelData, lookupData, storeData, eraseData, add32, sub32,
    U32, Order.make, Order.Fill, Order.IsFilled]

end Orderbook
